import Mathlib

/-!
Verification of the `pono` Solana MEV inspection pipeline.

This file gives a shallow embedding, in Lean 4, of the core of the
repository: the swap-reconstruction parser (`src/parsers/swap.rs`), the
arbitrage classifier, the sandwich identifier and the profit-accounting
layer (`src/detectors/mod.rs`), together with the data model
(`src/types/*.rs`).  Rust `u64` values are modelled as `Nat` (string
parsing enforces the `2^64` bound), `i64` arithmetic is made explicit via
`wrap64`, and `f64` accounting values are modelled as rationals.  Rust
`HashMap`s are modelled as association lists with insert-overwrite
semantics; where the code iterates a `HashMap` (an order the Rust standard
library leaves unspecified) the model fixes first-insertion order, and
every theorem that depends on an iteration order instead takes the order
as an explicit, constrained input.  The external price oracle
(`src/oracle.rs`, an HTTP client) enters only through the `PriceMap` it
returns, which is passed as a parameter, following the repository's own
interface split.  `tracing` log statements are modelled as no-ops.
-/

attribute [local semireducible] Rat.add Rat.mul Rat.inv Rat.sub

namespace Pono

/-- Two-sided wrap of an integer into the signed 64-bit range
`[-2^63, 2^63)`, the semantics of Rust `as i64` casts and of wrapping
`i64` arithmetic. -/
def wrap64 (x : Int) : Int := (x + 2 ^ 63) % 2 ^ 64 - 2 ^ 63

/-- Rust `u64 as i64` (`src/parsers/swap.rs` line 467). -/
def i64OfU64 (n : Nat) : Int := wrap64 n

/-- Rust `i64` subtraction (wrapping, as in release builds). -/
def i64Sub (a b : Int) : Int := wrap64 (a - b)

/-- Decimal digit test on a character. -/
def isDigitChar (c : Char) : Bool := decide (48 ≤ c.toNat) && decide (c.toNat ≤ 57)

/-- Rust `str::parse::<u64>`: an optional leading `+`, then one or more
digits, value below `2^64`. -/
def parseU64 (s : String) : Option Nat :=
  let cs := match s.data with
    | '+' :: rest => rest
    | cs => cs
  if cs.isEmpty then Option.none
  else if cs.all isDigitChar then
    let n := cs.foldl (fun acc c => acc * 10 + (c.toNat - 48)) 0
    if n < 2 ^ 64 then Option.some n else Option.none
  else Option.none

/-- `serde_json::Value`, restricted to the shapes the parser reads. -/
inductive Json where
  | null
  | bool (b : Bool)
  | num (n : Int)
  | str (s : String)
  | arr (elems : List Json)
  | obj (fields : List (String × Json))

/-- Lookup in a serde map (`Map::get`). -/
def jsonGet (fields : List (String × Json)) (key : String) : Option Json :=
  (fields.find? (fun p => p.1 == key)).map (fun p => p.2)

/-- `Value::as_object`. -/
def Json.asObject : Json → Option (List (String × Json))
  | .obj fields => Option.some fields
  | _ => Option.none

/-- `Value::as_str`. -/
def Json.asStr : Json → Option String
  | .str s => Option.some s
  | _ => Option.none

/-- `Value::as_u64`: integral and within `u64` range. -/
def Json.asU64 : Json → Option Nat
  | .num n => if 0 ≤ n ∧ n < 2 ^ 64 then Option.some n.toNat else Option.none
  | _ => Option.none

/-- `Value::get` on an object. -/
def Json.get (j : Json) (key : String) : Option Json :=
  j.asObject.bind (fun fields => jsonGet fields key)

/-- `solana_transaction_status::option_serializer::OptionSerializer`. -/
inductive OptionSerializer (α : Type) where
  | some (val : α)
  | none
  | skip
  deriving DecidableEq

/-- `UiTokenAmount`: the fields the parser reads. -/
structure UiTokenAmount where
  amount : String
  decimals : Nat
  deriving DecidableEq

/-- `UiTransactionTokenBalance`. -/
structure UiTransactionTokenBalance where
  account_index : Nat
  mint : String
  owner : OptionSerializer String
  ui_token_amount : UiTokenAmount
  deriving DecidableEq

/-- `UiCompiledInstruction`: the field the parser reads. -/
structure UiCompiledInstruction where
  program_id_index : Nat
  deriving DecidableEq

/-- The payload of `UiParsedInstruction::Parsed`. -/
structure ParsedInstructionData where
  program : String
  parsed : Json

/-- The payload of `UiParsedInstruction::PartiallyDecoded`. -/
structure UiPartiallyDecodedInstruction where
  program_id : String
  deriving DecidableEq

/-- `UiParsedInstruction`. -/
inductive UiParsedInstruction where
  | parsed (info : ParsedInstructionData)
  | partiallyDecoded (info : UiPartiallyDecodedInstruction)

/-- `UiInstruction`. -/
inductive UiInstruction where
  | compiled (info : UiCompiledInstruction)
  | parsed (info : UiParsedInstruction)

/-- `UiInnerInstructions`: one inner-instruction set, keyed by the outer
instruction index. -/
structure UiInnerInstructions where
  index : Nat
  instructions : List UiInstruction

/-- `ParsedAccount`. -/
structure ParsedAccount where
  pubkey : String
  deriving DecidableEq

/-- `UiParsedMessage`. -/
structure UiParsedMessage where
  account_keys : List ParsedAccount
  instructions : List UiInstruction

/-- `UiRawMessage`. -/
structure UiRawMessage where
  account_keys : List String
  instructions : List UiCompiledInstruction
  deriving DecidableEq

/-- `UiMessage`. -/
inductive UiMessage where
  | parsed (msg : UiParsedMessage)
  | raw (msg : UiRawMessage)

/-- `UiTransaction`: the field the code reads. -/
structure UiTransaction where
  message : UiMessage

/-- `EncodedTransaction`: the code only distinguishes the `Json` encoding
from every other encoding (`LegacyBinary`, `Binary`, `Accounts`), which it
treats uniformly. -/
inductive EncodedTransaction where
  | json (tx : UiTransaction)
  | other

/-- `UiTransactionStatusMeta`: the fields the code reads. -/
structure UiTransactionStatusMeta where
  err : Option String
  fee : Nat
  pre_balances : List Nat
  post_balances : List Nat
  inner_instructions : OptionSerializer (List UiInnerInstructions)
  log_messages : OptionSerializer (List String)
  pre_token_balances : OptionSerializer (List UiTransactionTokenBalance)
  post_token_balances : OptionSerializer (List UiTransactionTokenBalance)
  compute_units_consumed : OptionSerializer Nat

/-- `FetchedTransaction` (`src/types/block.rs`). -/
structure FetchedTransaction where
  signature : String
  transaction : EncodedTransaction
  meta : Option UiTransactionStatusMeta
  index : Nat

/-- `FetchedTransaction::is_success`. -/
def FetchedTransaction.is_success (tx : FetchedTransaction) : Bool :=
  match tx.meta with
  | Option.some m => m.err.isNone
  | Option.none => false

/-- `FetchedTransaction::fee`. -/
def FetchedTransaction.fee (tx : FetchedTransaction) : Option Nat :=
  tx.meta.map (fun m => m.fee)

/-- `FetchedTransaction::compute_units_consumed`. -/
def FetchedTransaction.compute_units_consumed (tx : FetchedTransaction) : Option Nat :=
  tx.meta.bind (fun m =>
    match m.compute_units_consumed with
    | OptionSerializer.some units => Option.some units
    | OptionSerializer.none => Option.none
    | OptionSerializer.skip => Option.none)

/-- `FetchedTransaction::signer`: the first account key of a JSON-encoded
transaction; `None` for any other encoding. -/
def FetchedTransaction.signer (tx : FetchedTransaction) : Option String :=
  match tx.transaction with
  | .json t =>
    match t.message with
    | .parsed p => p.account_keys.head?.map ParsedAccount.pubkey
    | .raw r => r.account_keys.head?
  | .other => Option.none

/-- The hard-coded jito tip recipient addresses. -/
def JITO_TIP_ACCOUNTS : List String :=
  [ "96gYZGLnJYVFmbjzopPSU6QiEV5fGqZNyN9nmNhvrZU5"
  , "HFqU5x63VTqvQss8hp11i4wVV8bD44PvwucfZ2bU7gRe"
  , "Cw8CFyM9FkoMi7K7Crf6HNQqf4uEMzpKw6QNghXLvLkY"
  , "ADaUMid9yfUytqMBgopwjb2DTLSokTSzL1zt6iGPaS49"
  , "DfXygSm4jCyNCybVYYK6DwvWqjKee8pbDmJGcLWNDXjh"
  , "ADuUkR4vqLUMWXxW9gh6D6L8pMSawimctcNZ5pGwDcEt"
  , "DttWaMuVvTiduZRnguLF7jNxTgiMBZ1hyAumKUiL2KRL"
  , "3AVi9Tg9Uo68tJfuvoKvqKNWKkC5wPdSSdeBnizKZ6jT" ]

/-- `FetchedTransaction::jito_tip`: the first account key that is a tip
recipient and whose native balance increased; returns the increase. -/
def FetchedTransaction.jito_tip (tx : FetchedTransaction) : Option Nat :=
  match tx.meta with
  | Option.none => Option.none
  | Option.some meta =>
    match tx.transaction with
    | .other => Option.none
    | .json t =>
      let account_keys := match t.message with
        | .parsed p => p.account_keys.map ParsedAccount.pubkey
        | .raw r => r.account_keys
      account_keys.enum.findSome? (fun p =>
        if JITO_TIP_ACCOUNTS.contains p.2 then
          match meta.pre_balances.get? p.1, meta.post_balances.get? p.1 with
          | Option.some pre, Option.some post =>
            if post > pre then Option.some (post - pre) else Option.none
          | _, _ => Option.none
        else Option.none)

/-- The canonical wrapped-native (SOL) mint. -/
def SOL_MINT : String := "So11111111111111111111111111111111111111112"

/-- The SPL token program address. -/
def TOKEN_PROGRAM_ID : String := "TokenkegQfeZyiNwAJbNbGKPFXCWuBvf9Ss623VQ5DA"

/-- The native system program address. -/
def SYSTEM_PROGRAM_ID : String := "11111111111111111111111111111111"

/-- Rust `HashMap::insert`: later inserts overwrite earlier ones. -/
def hmInsert {κ β : Type} [BEq κ] (m : List (κ × β)) (k : κ) (v : β) : List (κ × β) :=
  (k, v) :: m.filter (fun p => !(p.1 == k))

/-- Rust `HashMap::get`. -/
def hmGet {κ β : Type} [BEq κ] (m : List (κ × β)) (k : κ) : Option β :=
  (m.find? (fun p => p.1 == k)).map (fun p => p.2)

/-- A token transfer inside an inner-instruction set
(`struct Transfer` in `src/parsers/swap.rs`). -/
structure Transfer where
  mint : String
  amount : Nat
  decimals : Nat
  source : String
  destination : String
  deriving DecidableEq

/-- `SwapInfo` (`src/types/swap.rs`); the `f64` amounts are rationals. -/
structure SwapInfo where
  token0 : String
  amount0 : ℚ
  token1 : String
  amount1 : ℚ
  dex : String
  decimals0 : Nat
  decimals1 : Nat
  deriving DecidableEq

instance : Inhabited SwapInfo := ⟨⟨"", 0, "", 0, "", 0, 0⟩⟩

instance : Inhabited Transfer := ⟨⟨"", 0, 0, "", ""⟩⟩

/-- `TokenChange` (`src/types/token.rs`). -/
structure TokenChange where
  account_index : Nat
  mint : String
  owner : String
  pre_amount : Nat
  post_amount : Nat
  delta : Int
  decimals : Nat
  deriving DecidableEq

/-- `SwapParser::get_account_keys`. -/
def SwapParser.get_account_keys (tx : FetchedTransaction) : List String :=
  match tx.transaction with
  | .other => []
  | .json t =>
    match t.message with
    | .parsed p => p.account_keys.map ParsedAccount.pubkey
    | .raw r => r.account_keys

/-- `SwapParser::get_instruction_program_id`. -/
def SwapParser.get_instruction_program_id (inst : UiInstruction)
    (account_keys : List String) : String :=
  match inst with
  | .parsed (.parsed _) => ""
  | .parsed (.partiallyDecoded pd) => pd.program_id
  | .compiled c => ((account_keys.get? c.program_id_index).getD "")

/-- `SwapParser::is_system_program`. -/
def SwapParser.is_system_program (program_id : String) : Bool :=
  program_id == "11111111111111111111111111111111" ||
  program_id == "TokenkegQfeZyiNwAJbNbGKPFXCWuBvf9Ss623VQ5DA" ||
  program_id == "ATokenGPvbdGVxr1b2hvZbsiqW5xWH25efTNsLJA8knL" ||
  program_id == "ComputeBudget111111111111111111111111111111"

/-- One pass of `SwapParser::build_token_map` over a balance table:
account address (via the key list) maps to `(mint, decimals)`. -/
def insertTokenBalances (keys : List String)
    (balance_set : OptionSerializer (List UiTransactionTokenBalance))
    (m : List (String × String × Nat)) : List (String × String × Nat) :=
  match balance_set with
  | OptionSerializer.some balances =>
    balances.foldl (fun m b =>
      match keys.get? b.account_index with
      | Option.some account => hmInsert m account (b.mint, b.ui_token_amount.decimals)
      | Option.none => m) m
  | _ => m

/-- `SwapParser::build_token_map`: pre balances inserted first, post
balances second (so post-side entries overwrite pre-side ones). -/
def SwapParser.build_token_map (tx : FetchedTransaction) : List (String × String × Nat) :=
  match tx.meta with
  | Option.none => []
  | Option.some meta =>
    let keys := SwapParser.get_account_keys tx
    insertTokenBalances keys meta.post_token_balances
      (insertTokenBalances keys meta.pre_token_balances [])

/-- One pass of `SwapParser::build_owner_map` over a balance table. -/
def insertOwnerBalances (keys : List String)
    (balance_set : OptionSerializer (List UiTransactionTokenBalance))
    (m : List (String × String)) : List (String × String) :=
  match balance_set with
  | OptionSerializer.some balances =>
    balances.foldl (fun m b =>
      match keys.get? b.account_index with
      | Option.some account =>
        match b.owner with
        | OptionSerializer.some owner => hmInsert m account owner
        | _ => m
      | Option.none => m) m
  | _ => m

/-- `SwapParser::build_owner_map`. -/
def SwapParser.build_owner_map (tx : FetchedTransaction) : List (String × String) :=
  match tx.meta with
  | Option.none => []
  | Option.some meta =>
    let keys := SwapParser.get_account_keys tx
    insertOwnerBalances keys meta.post_token_balances
      (insertOwnerBalances keys meta.pre_token_balances [])

/-- `SwapParser::get_outer_instructions`. -/
def SwapParser.get_outer_instructions (tx : FetchedTransaction) : List String :=
  match tx.transaction with
  | .other => []
  | .json t =>
    match t.message with
    | .parsed p =>
      p.instructions.map (fun inst =>
        match inst with
        | .parsed (.parsed _) => ""
        | .parsed (.partiallyDecoded pd) => pd.program_id
        | .compiled c =>
          (((p.account_keys.get? c.program_id_index).map ParsedAccount.pubkey).getD ""))
    | .raw r =>
      r.instructions.map (fun inst =>
        ((r.account_keys.get? inst.program_id_index).getD ""))

/-- The transfer-candidate extraction inside the instruction loop of
`SwapParser::extract_swaps_from_inner_set` (lines 103–196): `None` models
every `continue`. -/
def parseTransferInstruction (info : ParsedInstructionData) (is_system_program : Bool)
    (token_map : List (String × String × Nat)) : Option Transfer :=
  match info.parsed.asObject with
  | Option.none => Option.none
  | Option.some obj =>
    match (jsonGet obj "type").bind Json.asStr with
    | Option.none => Option.none
    | Option.some typ =>
      if !(typ == "transfer") && !(typ == "transferChecked") then Option.none
      else
        match (jsonGet obj "info").bind Json.asObject with
        | Option.none => Option.none
        | Option.some info_obj =>
          if is_system_program then
            -- System program SOL transfer
            let lamports := ((jsonGet info_obj "lamports").bind Json.asU64).getD 0
            let src := ((jsonGet info_obj "source").bind Json.asStr).getD ""
            let dst := ((jsonGet info_obj "destination").bind Json.asStr).getD ""
            Option.some ⟨SOL_MINT, lamports, 9, src, dst⟩
          else
            -- Token program transfer
            let source := (((jsonGet info_obj "source").orElse
              (fun _ => jsonGet info_obj "account")).bind Json.asStr).getD ""
            let destination := ((jsonGet info_obj "destination").bind Json.asStr).getD ""
            let token_info := ((((jsonGet info_obj "source").orElse
              (fun _ => jsonGet info_obj "account")).orElse
              (fun _ => jsonGet info_obj "destination")).bind Json.asStr).bind
              (fun s => hmGet token_map s)
            let mint_from_instruction := (jsonGet info_obj "mint").bind Json.asStr
            let decimals_from_instruction :=
              (((jsonGet info_obj "tokenAmount").bind (fun v => v.get "decimals")).bind
                Json.asU64).map (fun d => d % 256)
            let amount := (((jsonGet info_obj "amount").orElse
              (fun _ => (jsonGet info_obj "tokenAmount").bind (fun v => v.get "amount"))).bind
              Json.asStr).bind parseU64 |>.getD 0
            match token_info with
            | Option.some md => Option.some ⟨md.1, amount, md.2, source, destination⟩
            | Option.none =>
              match mint_from_instruction, decimals_from_instruction with
              | Option.some m, Option.some d =>
                Option.some ⟨m, amount, d, source, destination⟩
              | _, _ => Option.none

/-- One iteration of the instruction loop of
`SwapParser::extract_swaps_from_inner_set`: threads `current_dex` and
appends accepted positive-amount transfers. -/
def collectStep (token_map : List (String × String × Nat)) (account_keys : List String)
    (st : String × List (Transfer × String)) (inst : UiInstruction) :
    String × List (Transfer × String) :=
  let current_dex := st.1
  let transfers := st.2
  let program_id := SwapParser.get_instruction_program_id inst account_keys
  let is_token_program := match inst with
    | .parsed (.parsed info) => info.program == "spl-token"
    | _ => program_id == TOKEN_PROGRAM_ID
  let is_system_program := match inst with
    | .parsed (.parsed info) => info.program == "system"
    | _ => program_id == SYSTEM_PROGRAM_ID
  let current_dex :=
    if !is_token_program && !is_system_program && !(program_id == "") &&
        !(SwapParser.is_system_program program_id) then program_id
    else current_dex
  if !is_token_program && !is_system_program then (current_dex, transfers)
  else
    match inst with
    | .parsed (.parsed info) =>
      match parseTransferInstruction info is_system_program token_map with
      | Option.some t =>
        if t.amount > 0 then (current_dex, transfers ++ [(t, current_dex)])
        else (current_dex, transfers)
      | Option.none => (current_dex, transfers)
    | _ => (current_dex, transfers)

/-- The transfer-collection phase of
`SwapParser::extract_swaps_from_inner_set` (lines 75–211). -/
def collectTransfers (instructions : List UiInstruction)
    (token_map : List (String × String × Nat)) (account_keys : List String)
    (outer_dex : String) : List (Transfer × String) :=
  (instructions.foldl (collectStep token_map account_keys) (outer_dex, [])).2

/-- The outgoing/incoming partition of
`SwapParser::extract_swaps_from_inner_set` (lines 234–248): a transfer is
outgoing when its source is owned by the signer and incoming when its
destination is; the `Nat` is the position in the combined transfer list. -/
def splitSignerTransfers (transfers : List (Transfer × String))
    (owner_map : List (String × String)) (signer : String) :
    List (Nat × Transfer × String) × List (Nat × Transfer × String) :=
  transfers.enum.foldl (fun acc p =>
    let outgoing := acc.1
    let incoming := acc.2
    let idx := p.1
    let t := p.2.1
    let dex := p.2.2
    let outgoing :=
      if hmGet owner_map t.source == Option.some signer
      then outgoing ++ [(idx, t, dex)] else outgoing
    let incoming :=
      if hmGet owner_map t.destination == Option.some signer
      then incoming ++ [(idx, t, dex)] else incoming
    (outgoing, incoming)) ([], [])

/-- Rust `Iterator::min_by_key`: the first element attaining the minimal
key (later elements replace the current best only on a strictly smaller
key). -/
def minByKeyFirst {α : Type} (key : α → Nat) : List α → Option α
  | [] => Option.none
  | x :: xs =>
    Option.some (xs.foldl (fun best y => if key y < key best then y else best) x)

/-- The distance key of the matcher
(`if idx > out_idx { idx - out_idx } else { out_idx - idx }`). -/
def idxDist (idx out_idx : Nat) : Nat :=
  if idx > out_idx then idx - out_idx else out_idx - idx

/-- Construction of one `SwapInfo` from a matched outgoing/incoming pair
(lines 286–297). -/
def mkSwapInfo (out_t : Transfer) (out_dex : String) (in_t : Transfer) : SwapInfo :=
  { token0 := out_t.mint
    amount0 := (out_t.amount : ℚ) / 10 ^ out_t.decimals
    token1 := in_t.mint
    amount1 := (in_t.amount : ℚ) / 10 ^ in_t.decimals
    dex := out_dex
    decimals0 := out_t.decimals
    decimals1 := in_t.decimals }

/-- One iteration of the matching loop (lines 259–299).  The state is the
set of used incoming positions (`used_incoming`, modelled as the list of
positions set to `true`) together with the swaps produced so far. -/
def matchStep (incoming : List (Nat × Transfer × String))
    (st : List Nat × List SwapInfo) (out : Nat × Transfer × String) :
    List Nat × List SwapInfo :=
  let used := st.1
  let swaps := st.2
  let cands := (incoming.enum.filter (fun p => !(used.contains p.1))).filter
    (fun p => !(p.2.2.1.mint == out.2.1.mint))
  match minByKeyFirst (fun p => idxDist p.2.1 out.1) cands with
  | Option.none => (used, swaps)
  | Option.some chosen =>
    (used ++ [chosen.1], swaps ++ [mkSwapInfo out.2.1 out.2.2 chosen.2.2.1])

/-- The matching phase of `SwapParser::extract_swaps_from_inner_set`:
each outgoing transfer, in order, is matched against the incoming list. -/
def matchTransfers (outgoing incoming : List (Nat × Transfer × String)) : List SwapInfo :=
  (outgoing.foldl (matchStep incoming) ([], [])).2

/-- `SwapParser::extract_swaps_from_inner_set`. -/
def SwapParser.extract_swaps_from_inner_set (instructions : List UiInstruction)
    (token_map : List (String × String × Nat)) (owner_map : List (String × String))
    (account_keys : List String) (signer : String) (outer_dex : String) : List SwapInfo :=
  let transfers := collectTransfers instructions token_map account_keys outer_dex
  let oi := splitSignerTransfers transfers owner_map signer
  matchTransfers oi.1 oi.2

/-- `SwapParser::extract_swaps`. -/
def SwapParser.extract_swaps (tx : FetchedTransaction) : List SwapInfo :=
  match tx.meta with
  | Option.none => []
  | Option.some meta =>
    match meta.inner_instructions with
    | OptionSerializer.some inner_instructions =>
      let token_map := SwapParser.build_token_map tx
      let owner_map := SwapParser.build_owner_map tx
      let account_keys := SwapParser.get_account_keys tx
      let signer := (tx.signer).getD ""
      let outer_instructions := SwapParser.get_outer_instructions tx
      inner_instructions.foldl (fun swaps inner_set =>
        let outer_dex := ((outer_instructions.get? inner_set.index).getD "")
        swaps ++ SwapParser.extract_swaps_from_inner_set inner_set.instructions
          token_map owner_map account_keys signer outer_dex) []
    | _ => []

/-- `SwapParser::extract_token_changes`.  The Rust iterates
`post_map.keys()` of a `HashMap` (order unspecified); the model iterates
the keys of the association-list image of that map. -/
def SwapParser.extract_token_changes (tx : FetchedTransaction) : List TokenChange :=
  match tx.meta with
  | Option.none => []
  | Option.some meta =>
    match meta.pre_token_balances, meta.post_token_balances with
    | OptionSerializer.some pre_balances, OptionSerializer.some post_balances =>
      let pre_map := pre_balances.foldl (fun m b => hmInsert m b.account_index b)
        ([] : List (Nat × UiTransactionTokenBalance))
      let post_map := post_balances.foldl (fun m b => hmInsert m b.account_index b)
        ([] : List (Nat × UiTransactionTokenBalance))
      (post_map.map Prod.fst).filterMap (fun idx =>
        match hmGet pre_map idx, hmGet post_map idx with
        | Option.some pre, Option.some post =>
          match parseU64 pre.ui_token_amount.amount, parseU64 post.ui_token_amount.amount with
          | Option.some pre_amt, Option.some post_amt =>
            if pre_amt == post_amt then Option.none
            else
              let owner := match post.owner with
                | OptionSerializer.some o => o
                | _ => ""
              Option.some
                { account_index := idx
                  mint := post.mint
                  owner := owner
                  pre_amount := pre_amt
                  post_amount := post_amt
                  delta := i64Sub (i64OfU64 post_amt) (i64OfU64 pre_amt)
                  decimals := post.ui_token_amount.decimals }
          | _, _ => Option.none
        | _, _ => Option.none)
    | _, _ => []

/-- Rust `Ord` on `String` (byte-wise comparison; for valid UTF-8 this is
code-point lexicographic order, here computed on the character list,
which the kernel can evaluate). -/
def strLt (a b : String) : Bool := decide (a.data < b.data)

/-- String comparison used by `sort_unstable` on `Vec<String>`. -/
def strLe (a b : String) : Bool := !(strLt b a)

/-- Single insertion into a sorted list. -/
def insertSorted (a : String) : List String → List String
  | [] => [a]
  | b :: rest => if strLe a b then a :: b :: rest else b :: insertSorted a rest

/-- `Vec::sort_unstable` on strings, modelled as insertion sort: the
string order is total and antisymmetric, so every comparison sort
produces the same list. -/
def sortStrings (l : List String) : List String := l.foldr insertSorted []

/-- `Vec::dedup`: removes consecutive duplicates. -/
def dedupAdj {α : Type} [BEq α] : List α → List α
  | [] => []
  | [x] => [x]
  | x :: y :: rest => if x == y then dedupAdj (y :: rest) else x :: dedupAdj (y :: rest)

/-- `SwapParser::extract_dex_programs`: program ids of all top-level
instructions, sorted and deduplicated. -/
def SwapParser.extract_dex_programs (tx : FetchedTransaction) : List String :=
  match tx.transaction with
  | .other => []
  | .json t =>
    let programs := match t.message with
      | .parsed p =>
        p.instructions.filterMap (fun inst =>
          match inst with
          | .parsed (.parsed info) => Option.some info.program
          | .parsed (.partiallyDecoded pd) => Option.some pd.program_id
          | .compiled c => (p.account_keys.get? c.program_id_index).map ParsedAccount.pubkey)
      | .raw r =>
        r.instructions.filterMap (fun inst => r.account_keys.get? inst.program_id_index)
    dedupAdj (sortStrings programs)

/-- The price map fetched from the external oracle for one block:
mint address to USD price (`HashMap<String, f64>`). -/
def PriceMap : Type := List (String × ℚ)

/-- `ArbitrageType` (`src/types/mev.rs`). -/
inductive ArbitrageType where
  | triangleArbitrage
  | stablecoinArbitrage
  | crossPairArbitrage
  | longTail
  deriving DecidableEq

/-- `SimpleTokenChange` (`src/types/token.rs`). -/
structure SimpleTokenChange where
  mint : String
  delta : Int
  decimals : Nat
  deriving DecidableEq

/-- `Profitability` (`src/types/mev.rs`). -/
structure Profitability where
  revenue_usd : ℚ
  fees_usd : ℚ
  profit_usd : ℚ
  unsupported_profit_tokens : List String
  deriving DecidableEq

/-- `ArbitrageEvent` (`src/types/mev.rs`). -/
structure ArbitrageEvent where
  signature : String
  signer : String
  compute_units_consumed : Nat
  fee : Nat
  priority_fee : Nat
  jito_tip : Nat
  swaps : List SwapInfo
  program_addresses : List String
  token_changes : List SimpleTokenChange
  profitability : Profitability
  arbitrage_type : ArbitrageType
  deriving DecidableEq

/-- `SandwichTransaction` (`src/types/mev.rs`). -/
structure SandwichTransaction where
  signature : String
  index : Nat
  signer : String
  compute_units : Nat
  fee : Nat
  swap : List SwapInfo
  deriving DecidableEq

/-- `SandwichEvent` (`src/types/mev.rs`). -/
structure SandwichEvent where
  slot : Nat
  signer : String
  sandwiched_token : String
  front_run : SandwichTransaction
  back_run : SandwichTransaction
  total_compute_units : Nat
  total_fees : Nat
  total_jito_tips : Nat
  program_addresses : List String
  token_changes : List SimpleTokenChange
  profitability : Profitability
  deriving DecidableEq

/-- `MevEvent` (`src/types/mev.rs`). -/
inductive MevEvent where
  | arbitrage (ev : ArbitrageEvent)
  | sandwich (ev : SandwichEvent)
  deriving DecidableEq

/-- The inspector's `min_swap_count` field, set to 2 by
`MevInspector::new`. -/
def MIN_SWAP_COUNT : Nat := 2

/-- `MevInspector::is_stablecoin`: the price map has a price for the
token in the range `[0.95, 1.05]`. -/
def is_stablecoin (token : String) (price_map : PriceMap) : Bool :=
  match hmGet price_map token with
  | Option.some price => decide ((95 : ℚ) / 100 ≤ price) && decide (price ≤ (105 : ℚ) / 100)
  | Option.none => false

/-- `MevInspector::is_stable_pair`. -/
def is_stable_pair (token1 token2 : String) (price_map : PriceMap) : Bool :=
  is_stablecoin token1 price_map && is_stablecoin token2 price_map

/-- The continuity check of `MevInspector::classify_arbitrage`
(`swaps.windows(2).all(...)`): each swap's output token equals the next
swap's input token. -/
def isContinuous (swaps : List SwapInfo) : Bool :=
  (swaps.zip swaps.tail).all (fun p => p.1.token1 == p.2.token0)

/-- `MevInspector::classify_arbitrage`. -/
def classify_arbitrage (swaps : List SwapInfo) (price_map : PriceMap) : ArbitrageType :=
  match swaps with
  | [] => ArbitrageType.longTail
  | [_] => ArbitrageType.longTail
  | s0 :: s1 :: rest =>
    let last_swap := (s1 :: rest).getLast (List.cons_ne_nil s1 rest)
    let first_token := s0.token0
    let last_token := last_swap.token1
    let is_continuous := isContinuous (s0 :: s1 :: rest)
    if rest.isEmpty then
      -- Two Swaps Logic
      if first_token == last_token && is_continuous then ArbitrageType.triangleArbitrage
      else if is_stable_pair first_token last_token price_map && is_continuous then
        ArbitrageType.stablecoinArbitrage
      else if is_stable_pair first_token last_token price_map then
        ArbitrageType.stablecoinArbitrage
      else if first_token == last_token && !is_continuous then
        ArbitrageType.crossPairArbitrage
      else ArbitrageType.longTail
    else
      -- Three or More Swaps Logic
      if is_stable_pair first_token last_token price_map then
        ArbitrageType.stablecoinArbitrage
      else if first_token == last_token && !is_continuous then
        ArbitrageType.crossPairArbitrage
      else if first_token == last_token && is_continuous then
        ArbitrageType.triangleArbitrage
      else ArbitrageType.longTail

/-- Substring containment, as Rust `str::contains`. -/
def strContainsSub (hay needle : String) : Bool :=
  hay.data.tails.any (fun t => needle.data.isPrefixOf t)

/-- `MevInspector::has_potential_mev`. -/
def has_potential_mev (tx : FetchedTransaction) : Bool :=
  match tx.meta with
  | Option.none => false
  | Option.some meta =>
    let inner_nonempty := match meta.inner_instructions with
      | OptionSerializer.some inner => !inner.isEmpty
      | _ => false
    if inner_nonempty then true
    else
      match meta.log_messages with
      | OptionSerializer.some logs =>
        logs.any (fun msg =>
          strContainsSub msg "Instruction: Swap" ||
          strContainsSub msg "Instruction: Transfer" ||
          strContainsSub msg "Program log: Instruction: Swap" ||
          strContainsSub msg "swap" ||
          strContainsSub msg "Swap")
      | _ => false

/-- Rust `HashMap::entry(mint).or_insert((0, decimals)); entry.0 += delta`
keyed by mint: updates in place, keeping the decimals of the first
occurrence. -/
def entryAdd (m : List (String × Int × Nat)) (mint : String) (delta : Int)
    (decimals : Nat) : List (String × Int × Nat) :=
  match m with
  | [] => [(mint, delta, decimals)]
  | e :: rest =>
    if e.1 == mint then (e.1, e.2.1 + delta, e.2.2) :: rest
    else e :: entryAdd rest mint delta decimals

/-- One iteration of the USD accumulation loop of
`MevInspector::detect_arbitrage_with_prices` (lines 345–361). -/
def usdStep (price_map : PriceMap) (acc : ℚ × ℚ × List String)
    (entry : String × ℚ × Nat) : ℚ × ℚ × List String :=
  let revenue_usd := acc.1
  let cost_usd := acc.2.1
  let unsupported := acc.2.2
  let mint := entry.1
  let amount := entry.2.1
  let price := (hmGet price_map mint).getD 0
  let value_usd := |amount| * price
  let is_significant := decide (1 < |amount|)
  if 0 < amount then
    (revenue_usd + value_usd, cost_usd,
      if decide (price = 0) && is_significant then unsupported ++ [mint] else unsupported)
  else if amount < 0 then
    (revenue_usd, cost_usd + value_usd,
      if decide (price = 0) && is_significant then unsupported ++ [mint] else unsupported)
  else acc

/-- The USD accumulation loop of
`MevInspector::detect_arbitrage_with_prices` (lines 340–361): folds the
net positions into `(revenue_usd, cost_usd, unsupported_profit_tokens)`. -/
def accumulateUsd (price_map : PriceMap) (net_position : List (String × ℚ × Nat)) :
    ℚ × ℚ × List String :=
  net_position.foldl (usdStep price_map) (0, 0, [])

/-- The event construction of `MevInspector::detect_arbitrage_with_prices`
(lines 314–394), after the guards have passed. -/
def arbitrage_event_of (tx : FetchedTransaction) (signer : String)
    (swaps : List SwapInfo) (token_changes : List TokenChange)
    (program_addresses : List String) (price_map : PriceMap)
    (arbitrage_type : ArbitrageType) : ArbitrageEvent :=
  let signer_changes := token_changes.filter (fun tc => tc.owner == signer)
  let changes_by_mint := signer_changes.foldl
    (fun m tc => entryAdd m tc.mint tc.delta tc.decimals) []
  let token_changes_output := changes_by_mint.map
    (fun e => SimpleTokenChange.mk e.1 e.2.1 e.2.2)
  let net_position := changes_by_mint.map
    (fun e => (e.1, (e.2.1 : ℚ) / 10 ^ e.2.2, e.2.2))
  let acc := accumulateUsd price_map net_position
  let revenue_usd := acc.1 - acc.2.1
  let unsupported_profit_tokens := acc.2.2
  let fee := (tx.fee).getD 0
  let compute_units := (tx.compute_units_consumed).getD 0
  let priority_fee := fee - 5000
  let jito_tip := (tx.jito_tip).getD 0
  let sol_price := (hmGet price_map SOL_MINT).getD 130
  let fees_usd := ((fee + jito_tip : Nat) : ℚ) / 1000000000 * sol_price
  let profit_usd := revenue_usd - fees_usd
  { signature := tx.signature
    signer := signer
    compute_units_consumed := compute_units
    fee := fee
    priority_fee := priority_fee
    jito_tip := jito_tip
    swaps := swaps
    program_addresses := program_addresses
    token_changes := token_changes_output
    profitability :=
      { revenue_usd := revenue_usd
        fees_usd := fees_usd
        profit_usd := profit_usd
        unsupported_profit_tokens := unsupported_profit_tokens }
    arbitrage_type := arbitrage_type }

/-- `MevInspector::detect_arbitrage_with_prices`. -/
def detect_arbitrage_with_prices (tx : FetchedTransaction) (swaps : List SwapInfo)
    (token_changes : List TokenChange) (program_addresses : List String)
    (price_map : PriceMap) (min_swap_count : Nat) : Option ArbitrageEvent :=
  match tx.signer with
  | Option.none => Option.none
  | Option.some signer =>
    if swaps.length < min_swap_count then Option.none
    else
      let arbitrage_type := classify_arbitrage swaps price_map
      if arbitrage_type == ArbitrageType.longTail then Option.none
      else
        let signer_changes := token_changes.filter (fun tc => tc.owner == signer)
        let has_profit := signer_changes.any (fun tc => decide (0 < tc.delta))
        if !has_profit then Option.none
        else
          Option.some (arbitrage_event_of tx signer swaps token_changes
            program_addresses price_map arbitrage_type)

/-- `struct OwnedSandwich` (`src/detectors/mod.rs`), with the borrowed
transactions held by value. -/
structure OwnedSandwich where
  front_run_tx : FetchedTransaction
  back_run_tx : FetchedTransaction
  front_run_swaps : List SwapInfo
  back_run_swaps : List SwapInfo
  front_run_changes : List TokenChange
  back_run_changes : List TokenChange
  front_run_progs : List String
  back_run_progs : List String
  signer : String
  sandwiched_token : String
  victim_progs : List String

/-- The unordered token pair of a swap (lines 462–471): the two tokens
ordered by the string order. -/
def unorderedPair (s : SwapInfo) : String × String :=
  if strLt s.token0 s.token1 then (s.token0, s.token1) else (s.token1, s.token0)

/-- The per-pair body of `MevInspector::identify_sandwiches_lazy`
(lines 438–525): all the `continue`d checks, returning the candidate when
they pass. -/
def has_victim_between (transactions : List FetchedTransaction) (signer : String)
    (front_run_tx back_run_tx : FetchedTransaction) : Bool :=
  (((transactions.filter (fun tx =>
      decide (front_run_tx.index < tx.index) && decide (tx.index < back_run_tx.index))).filter
      (fun tx => tx.is_success)).any
      (fun tx => ((tx.signer).map (fun s => !(s == signer))).getD false))

def sandwich_checks (transactions : List FetchedTransaction) (signer : String)
    (front_run_tx back_run_tx : FetchedTransaction) : Option OwnedSandwich :=
  if !(has_victim_between transactions signer front_run_tx back_run_tx) then Option.none
  else
    match SwapParser.extract_swaps front_run_tx, SwapParser.extract_swaps back_run_tx with
    | [front_swap], [back_swap] =>
      if !(unorderedPair front_swap == unorderedPair back_swap) then Option.none
      else
        let same_direction :=
          front_swap.token0 == back_swap.token0 && front_swap.token1 == back_swap.token1
        if same_direction then Option.none
        else
          let front_changes := SwapParser.extract_token_changes front_run_tx
          let back_changes := SwapParser.extract_token_changes back_run_tx
          let front_progs := SwapParser.extract_dex_programs front_run_tx
          let back_progs := SwapParser.extract_dex_programs back_run_tx
          let sandwiched_token :=
            if front_swap.token0 == SOL_MINT then front_swap.token1
            else if front_swap.token1 == SOL_MINT then front_swap.token0
            else front_swap.token1
          let victim_progs_raw := transactions.foldl (fun acc tx =>
            if decide (front_run_tx.index < tx.index) &&
                decide (tx.index < back_run_tx.index) && tx.is_success then
              match tx.signer with
              | Option.some victim_signer =>
                if !(victim_signer == signer)
                then acc ++ SwapParser.extract_dex_programs tx else acc
              | Option.none => acc
            else acc) []
          let victim_progs := dedupAdj (sortStrings victim_progs_raw)
          Option.some
            { front_run_tx := front_run_tx
              back_run_tx := back_run_tx
              front_run_swaps := [front_swap]
              back_run_swaps := [back_swap]
              front_run_changes := front_changes
              back_run_changes := back_changes
              front_run_progs := front_progs
              back_run_progs := back_progs
              signer := signer
              sandwiched_token := sandwiched_token
              victim_progs := victim_progs }
    | _, _ => Option.none

/-- The inner `j` loop of `MevInspector::identify_sandwiches_lazy`: scan
positions after `i`, skipping used ones, and stop at the first pair that
passes all checks. -/
def find_back (transactions : List FetchedTransaction) (signer : String)
    (g : List FetchedTransaction) (i : Nat) (used : List Nat) :
    Option (Nat × OwnedSandwich) :=
  ((List.range' (i + 1) (g.length - (i + 1))).filter
      (fun j => !(used.contains j))).findSome? (fun j =>
    match g.get? i, g.get? j with
    | Option.some front_run_tx, Option.some back_run_tx =>
      (sandwich_checks transactions signer front_run_tx back_run_tx).map
        (fun cand => (j, cand))
    | _, _ => Option.none)

/-- The greedy left scan over one signer group (the `i` loop of
`MevInspector::identify_sandwiches_lazy`). -/
def greedy_group (transactions : List FetchedTransaction) (signer : String)
    (g : List FetchedTransaction) : List OwnedSandwich :=
  ((List.range g.length).foldl (fun st i =>
    if st.1.contains i then st
    else
      match find_back transactions signer g i st.1 with
      | Option.some jc => (st.1 ++ [i, jc.1], st.2 ++ [jc.2])
      | Option.none => st) (([], []) : List Nat × List OwnedSandwich)).2

/-- The group of successful transactions of one signer, in block order:
the per-signer content of the `tx_by_signer` map of
`MevInspector::identify_sandwiches_lazy`. -/
def signerGroup (transactions : List FetchedTransaction) (s : String) :
    List FetchedTransaction :=
  transactions.filter (fun tx => tx.is_success && (tx.signer == Option.some s))

/-- A grouping is any sequence the iteration of the Rust `HashMap`
`tx_by_signer` may produce: distinct signer keys, each paired with exactly
that signer's group.  The Rust standard library leaves the iteration
order unspecified, so theorems quantify over all valid groupings. -/
def validGrouping (transactions : List FetchedTransaction)
    (groups : List (String × List FetchedTransaction)) : Prop :=
  (groups.map Prod.fst).Nodup ∧
  ∀ p ∈ groups, p.2 = signerGroup transactions p.1

/-- `MevInspector::identify_sandwiches_lazy`, parameterised by the
grouping (see `validGrouping`). -/
def identify_sandwiches_lazy (transactions : List FetchedTransaction)
    (groups : List (String × List FetchedTransaction)) : List OwnedSandwich :=
  if transactions.length < 3 then []
  else
    groups.foldl (fun acc sg =>
      if sg.2.length < 2 then acc
      else acc ++ greedy_group transactions sg.1 sg.2) []

/-- The event construction of
`MevInspector::calculate_sandwich_profitability` (lines 552–708) for one
candidate, including the profitability computation. -/
def sandwich_event_of (slot : Nat) (price_map : PriceMap)
    (candidate : OwnedSandwich) : SandwichEvent :=
  let front_swap := candidate.front_run_swaps.headI
  let back_swap := candidate.back_run_swaps.headI
  let payment_token :=
    if front_swap.token0 == SOL_MINT || front_swap.token1 == SOL_MINT then SOL_MINT
    else front_swap.token0
  let sr :=
    if front_swap.token0 == payment_token then (front_swap.amount0, back_swap.amount1)
    else (back_swap.amount0, front_swap.amount1)
  let profit_in_token := sr.2 - sr.1
  let token_price := (hmGet price_map payment_token).getD
    (if payment_token == SOL_MINT then 130 else 1)
  let revenue_usd := max profit_in_token 0 * token_price
  let total_fees := (candidate.front_run_tx.fee).getD 0 + (candidate.back_run_tx.fee).getD 0
  let total_jito_tips :=
    (candidate.front_run_tx.jito_tip).getD 0 + (candidate.back_run_tx.jito_tip).getD 0
  let sol_price := (hmGet price_map SOL_MINT).getD 127
  let fees_usd := ((total_fees + total_jito_tips : Nat) : ℚ) / 1000000000 * sol_price
  let profit_usd := revenue_usd - fees_usd
  let unsupported_profit_tokens : List String := []
  let combined_changes :=
    (candidate.front_run_changes ++ candidate.back_run_changes).foldl (fun m change =>
      if change.owner == candidate.signer
      then entryAdd m change.mint change.delta change.decimals else m) []
  let token_changes := combined_changes.map (fun e => SimpleTokenChange.mk e.1 e.2.1 e.2.2)
  let program_addresses := dedupAdj (sortStrings
    (candidate.front_run_progs ++ candidate.victim_progs ++ candidate.back_run_progs))
  { slot := slot
    signer := candidate.signer
    sandwiched_token := candidate.sandwiched_token
    front_run :=
      { signature := candidate.front_run_tx.signature
        index := candidate.front_run_tx.index
        signer := candidate.signer
        compute_units := (candidate.front_run_tx.compute_units_consumed).getD 0
        fee := (candidate.front_run_tx.fee).getD 0
        swap := candidate.front_run_swaps }
    back_run :=
      { signature := candidate.back_run_tx.signature
        index := candidate.back_run_tx.index
        signer := candidate.signer
        compute_units := (candidate.back_run_tx.compute_units_consumed).getD 0
        fee := (candidate.back_run_tx.fee).getD 0
        swap := candidate.back_run_swaps }
    total_compute_units := (candidate.front_run_tx.compute_units_consumed).getD 0 +
      (candidate.back_run_tx.compute_units_consumed).getD 0
    total_fees := total_fees
    total_jito_tips := total_jito_tips
    program_addresses := program_addresses
    token_changes := token_changes
    profitability :=
      { revenue_usd := revenue_usd
        fees_usd := fees_usd
        profit_usd := profit_usd
        unsupported_profit_tokens := unsupported_profit_tokens } }

/-- `MevInspector::calculate_sandwich_profitability`: candidates whose
profit is non-positive are dropped (`continue`), the rest are emitted. -/
def calculate_sandwich_profitability (slot : Nat) (candidates : List OwnedSandwich)
    (price_map : PriceMap) : List SandwichEvent :=
  candidates.filterMap (fun candidate =>
    if (sandwich_event_of slot price_map candidate).profitability.profit_usd ≤ 0
    then Option.none
    else Option.some (sandwich_event_of slot price_map candidate))

/-- The per-transaction candidate filter of `MevInspector::detect_mev`
(lines 145–166): swap count, signer presence, and a positive signer
token delta. -/
def arbitrage_candidate (tx : FetchedTransaction) :
    Option (FetchedTransaction × List SwapInfo × List TokenChange × List String) :=
  let swaps := SwapParser.extract_swaps tx
  if swaps.length < MIN_SWAP_COUNT then Option.none
  else
    match tx.signer with
    | Option.none => Option.none
    | Option.some signer =>
      let token_changes := SwapParser.extract_token_changes tx
      let has_profit := token_changes.any
        (fun tc => tc.owner == signer && decide (0 < tc.delta))
      if has_profit then
        Option.some (tx, swaps, token_changes, SwapParser.extract_dex_programs tx)
      else Option.none

/-- The parallel arbitrage-candidate pass of `MevInspector::detect_mev`
(the `rayon` collect preserves input order). -/
def arbitrage_candidates (transactions : List FetchedTransaction) :
    List (FetchedTransaction × List SwapInfo × List TokenChange × List String) :=
  (transactions.filter
    (fun tx => tx.is_success && has_potential_mev tx)).filterMap arbitrage_candidate

/-- The sandwich-candidate pass of `MevInspector::detect_mev`. -/
def sandwich_candidates (transactions : List FetchedTransaction)
    (groups : List (String × List FetchedTransaction)) : List OwnedSandwich :=
  if 3 ≤ transactions.length then identify_sandwiches_lazy transactions groups
  else []

/-- `MevInspector::detect_mev` for one block.  The oracle batch fetch is
external (`src/oracle.rs`, HTTP); the model receives the fetched
`PriceMap` directly, and the `unique_mints` collection that only feeds
that fetch is not re-modelled.  The signer grouping (a Rust `HashMap`
iteration) is an explicit input, constrained by `validGrouping`. -/
def detect_mev (price_map : PriceMap) (slot : Nat)
    (transactions : List FetchedTransaction)
    (groups : List (String × List FetchedTransaction)) : List MevEvent :=
  if (arbitrage_candidates transactions).isEmpty &&
      (sandwich_candidates transactions groups).isEmpty then []
  else
    let arbitrages :=
      ((arbitrage_candidates transactions).filterMap (fun c =>
        detect_arbitrage_with_prices c.1 c.2.1 c.2.2.1 c.2.2.2 price_map
          MIN_SWAP_COUNT)).filter
        (fun arb => decide (0 < arb.profitability.profit_usd))
    arbitrages.map MevEvent.arbitrage ++
      (calculate_sandwich_profitability slot
        (sandwich_candidates transactions groups) price_map).map MevEvent.sandwich

/-! ### Concrete blocks used by counterexamples and witnesses -/

/-- A parsed SPL-token `transfer` inner instruction. -/
def mkTokenTransferInst (src dst amt : String) : UiInstruction :=
  UiInstruction.parsed (UiParsedInstruction.parsed
    { program := "spl-token"
      parsed := Json.obj
        [ ("type", Json.str "transfer")
        , ("info", Json.obj
            [ ("source", Json.str src)
            , ("destination", Json.str dst)
            , ("amount", Json.str amt) ]) ] })

/-- A token-balance table entry (decimals 0). -/
def mkBal (account_index : Nat) (mint owner amt : String) : UiTransactionTokenBalance :=
  { account_index := account_index
    mint := mint
    owner := OptionSerializer.some owner
    ui_token_amount := { amount := amt, decimals := 0 } }

/-- A successful transaction performing exactly one swap
`mintO -> mintI` through program `DP`: the signer owns the source of the
first transfer and the destination of the second. -/
def mkSwapTx (sig : String) (idx : Nat) (signer : String)
    (srcO dstO srcI dstI : String) (mintO mintI : String) (amtO amtI : String)
    (extraPre extraPost : List UiTransactionTokenBalance) : FetchedTransaction :=
  { signature := sig
    index := idx
    transaction := EncodedTransaction.json
      { message := UiMessage.parsed
          { account_keys := [⟨signer⟩, ⟨srcO⟩, ⟨dstO⟩, ⟨srcI⟩, ⟨dstI⟩, ⟨"DP"⟩]
            instructions :=
              [UiInstruction.parsed (UiParsedInstruction.partiallyDecoded ⟨"DP"⟩)] } }
    meta := Option.some
      { err := Option.none
        fee := 0
        pre_balances := []
        post_balances := []
        inner_instructions := OptionSerializer.some
          [⟨0, [mkTokenTransferInst srcO dstO amtO, mkTokenTransferInst srcI dstI amtI]⟩]
        log_messages := OptionSerializer.skip
        pre_token_balances := OptionSerializer.some
          ([mkBal 1 mintO signer "0", mkBal 2 mintO "P" "0",
            mkBal 3 mintI "P" "0", mkBal 4 mintI signer "0"] ++ extraPre)
        post_token_balances := OptionSerializer.some
          ([mkBal 1 mintO signer "0", mkBal 2 mintO "P" "0",
            mkBal 3 mintI "P" "0", mkBal 4 mintI signer "0"] ++ extraPost)
        compute_units_consumed := OptionSerializer.none } }

/-- A successful transaction with no inner instructions (no swaps). -/
def mkPlainTx (sig : String) (idx : Nat) (signer : String) : FetchedTransaction :=
  { signature := sig
    index := idx
    transaction := EncodedTransaction.json
      { message := UiMessage.raw { account_keys := [signer], instructions := [] } }
    meta := Option.some
      { err := Option.none
        fee := 0
        pre_balances := []
        post_balances := []
        inner_instructions := OptionSerializer.none
        log_messages := OptionSerializer.skip
        pre_token_balances := OptionSerializer.none
        post_token_balances := OptionSerializer.none
        compute_units_consumed := OptionSerializer.none } }

/-- C1 block: three transfers in one inner set; the one outgoing transfer
(position 1, mint `MA`) sits between two incoming transfers at equal
distance (position 0, mint `MB`, and position 2, mint `MC`). -/
def c1TokenMap : List (String × String × Nat) :=
  [("srcA", "MA", 0), ("dstA", "MA", 0), ("srcB", "MB", 0), ("dstB", "MB", 0),
   ("srcC", "MC", 0), ("dstC", "MC", 0)]

/-- Ownership for the C1 block: the signer `S` owns `srcA` (outgoing),
`dstB` and `dstC` (incoming). -/
def c1OwnerMap : List (String × String) :=
  [("srcA", "S"), ("dstA", "P"), ("srcB", "P"), ("dstB", "S"),
   ("srcC", "P"), ("dstC", "S")]

/-- The C1 inner-instruction set. -/
def c1Insts : List UiInstruction :=
  [mkTokenTransferInst "srcB" "dstB" "5",
   mkTokenTransferInst "srcA" "dstA" "7",
   mkTokenTransferInst "srcC" "dstC" "9"]

/-- C7 block: attacker `A` signs transactions at indices 0 (no swaps),
5 and 7 (a sandwich around the victim at 6); attacker `B` signs 1 and 3
(a sandwich around the victim at 2). -/
def txA0 : FetchedTransaction := mkPlainTx "A0sig" 0 "A"

/-- C7 block, attacker `B` front-run at index 1. -/
def txB1 : FetchedTransaction :=
  mkSwapTx "B1sig" 1 "B" "b1o" "b1p" "b1q" "b1i" "W" "T" "10" "1000" [] []

/-- C7 block, victim at index 2. -/
def txV2 : FetchedTransaction := mkPlainTx "V2sig" 2 "E2"

/-- C7 block, attacker `B` back-run at index 3. -/
def txB3 : FetchedTransaction :=
  mkSwapTx "B3sig" 3 "B" "b3o" "b3p" "b3q" "b3i" "T" "W" "1000" "12" [] []

/-- C7 block, attacker `A` front-run at index 5. -/
def txA5 : FetchedTransaction :=
  mkSwapTx "A5sig" 5 "A" "a5o" "a5p" "a5q" "a5i" "W" "T" "10" "1000" [] []

/-- C7 block, victim at index 6. -/
def txV6 : FetchedTransaction := mkPlainTx "V6sig" 6 "E"

/-- C7 block, attacker `A` back-run at index 7. -/
def txA7 : FetchedTransaction :=
  mkSwapTx "A7sig" 7 "A" "a7o" "a7p" "a7q" "a7i" "T" "W" "1000" "12" [] []

/-- The C7 block's transactions, in index order. -/
def txs7 : List FetchedTransaction := [txA0, txB1, txV2, txB3, txA5, txV6, txA7]

/-- A valid signer grouping of the C7 block in which attacker `A`
(first transaction at index 0) precedes attacker `B`. -/
def g7 : List (String × List FetchedTransaction) :=
  [("A", [txA0, txA5, txA7]), ("B", [txB1, txB3])]

/-- The C7 price map. -/
def pm7 : PriceMap := [("W", 1)]

/-- C6 block: attacker `A` sandwiches the victim at index 1; the
front-run additionally nets the attacker +5 of the unpriced mint `X`. -/
def txF0 : FetchedTransaction :=
  mkSwapTx "F0sig" 0 "A" "f0o" "f0p" "f0q" "f0i" "W" "T" "10" "1000"
    [mkBal 6 "X" "A" "0"] [mkBal 6 "X" "A" "5"]

/-- C6 block, victim at index 1. -/
def txV1 : FetchedTransaction := mkPlainTx "V1sig" 1 "V"

/-- C6 block, back-run at index 2. -/
def txK2 : FetchedTransaction :=
  mkSwapTx "K2sig" 2 "A" "k2o" "k2p" "k2q" "k2i" "T" "W" "1000" "12" [] []

/-- The C6 block's transactions. -/
def txs6 : List FetchedTransaction := [txF0, txV1, txK2]

/-- The C6 grouping. -/
def g6 : List (String × List FetchedTransaction) := [("A", [txF0, txK2])]

/-- The C6 price map: empty, so every mint is unpriced. -/
def pm6 : PriceMap := []

/-! ### Shared infrastructure for the theorems -/

instance : Inhabited Profitability := ⟨⟨0, 0, 0, []⟩⟩

instance : Inhabited SandwichTransaction := ⟨⟨"", 0, "", 0, 0, []⟩⟩

instance : Inhabited SandwichEvent := ⟨⟨0, "", "", default, default, 0, 0, 0, [], [], default⟩⟩

instance : Inhabited ArbitrageEvent :=
  ⟨⟨"", "", 0, 0, 0, 0, [], [], [], ⟨0, 0, 0, []⟩, ArbitrageType.longTail⟩⟩

instance : Inhabited MevEvent := ⟨MevEvent.arbitrage default⟩

/-- The sandwich events of an event list, in order. -/
def sandwichesOf (events : List MevEvent) : List SandwichEvent :=
  events.filterMap (fun e =>
    match e with
    | MevEvent.sandwich s => Option.some s
    | _ => Option.none)

/-- A `foldl` invariant preserved by every step, with the step element
known to come from the list. -/
theorem foldl_preserve_mem {σ α : Type} (P : σ → Prop) (f : σ → α → σ) (l : List α)
    (init : σ) (h0 : P init) (hstep : ∀ s a, a ∈ l → P s → P (f s a)) :
    P (l.foldl f init) := by
  induction l generalizing init with
  | nil => exact h0
  | cons a rest ih =>
    exact ih (f init a) (hstep init a (List.mem_cons_self a rest) h0)
      (fun s b hb hs => hstep s b (List.mem_cons_of_mem a hb) hs)

/-- Membership in a `foldl` that appends a list per element. -/
theorem mem_foldl_append {α β : Type} (f : β → List α) (l : List β) (init : List α)
    (x : α) :
    x ∈ l.foldl (fun acc b => acc ++ f b) init ↔ x ∈ init ∨ ∃ b ∈ l, x ∈ f b := by
  induction l generalizing init with
  | nil => simp
  | cons b rest ih =>
    rw [List.foldl_cons, ih]
    simp only [List.mem_append, List.mem_cons]
    constructor
    · rintro ((h | h) | ⟨c, hc, hx⟩)
      · exact Or.inl h
      · exact Or.inr ⟨b, Or.inl rfl, h⟩
      · exact Or.inr ⟨c, Or.inr hc, hx⟩
    · rintro (h | ⟨c, (rfl | hc), hx⟩)
      · exact Or.inl (Or.inl h)
      · exact Or.inl (Or.inr hx)
      · exact Or.inr ⟨c, hc, hx⟩

/-- `minByKeyFirst` returns an element of the list. -/
theorem minByKeyFirst_mem {α : Type} (key : α → Nat) (l : List α) (x : α)
    (h : minByKeyFirst key l = Option.some x) : x ∈ l := by
  match l with
  | [] => simp [minByKeyFirst] at h
  | y :: ys =>
    simp only [minByKeyFirst, Option.some.injEq] at h
    subst h
    have : ∀ (init : α), init ∈ y :: ys →
        ys.foldl (fun best z => if key z < key best then z else best) init ∈ y :: ys := by
      have grow : ∀ (zs : List α) (init : α), init ∈ y :: ys → (∀ z ∈ zs, z ∈ y :: ys) →
          zs.foldl (fun best z => if key z < key best then z else best) init ∈ y :: ys := by
        intro zs
        induction zs with
        | nil => intro init h0 _; exact h0
        | cons z zs ih =>
          intro init h0 hz
          apply ih
          · by_cases hlt : key z < key init
            · simpa [hlt] using hz z (List.mem_cons_self z zs)
            · simpa [hlt] using h0
          · intro w hw; exact hz w (List.mem_cons_of_mem z hw)
      intro init h0
      exact grow ys init h0 (fun z hz => List.mem_cons_of_mem y hz)
    exact this y (List.mem_cons_self y ys)

/-! ### C2: classification of continuous stable swap lists -/

/-- The C2 swap list: a continuous 2-swap cycle between two stablecoins
(a stable triangle). -/
def c2Swaps : List SwapInfo :=
  [⟨"U1", 1, "U2", 1, "dex", 0, 0⟩, ⟨"U2", 1, "U1", 1, "dex", 0, 0⟩]

/-- The C2 price map: both tokens price at 1.00. -/
def c2Pm : PriceMap := [("U1", 1), ("U2", 1)]

/-- C2 counterexample: a continuous 2-swap list whose first and last
tokens are equal and both stable is classified `TriangleArbitrage`, not
`StablecoinArbitrage` — in the 2-swap branch the `first == last ∧
continuous` triangle check runs before the stable-pair checks. -/
theorem c2_counterexample :
    isContinuous c2Swaps = true ∧
    is_stable_pair c2Swaps.headI.token0 (c2Swaps.getLastD default).token1 c2Pm = true ∧
    c2Swaps.headI.token0 = (c2Swaps.getLastD default).token1 ∧
    classify_arbitrage c2Swaps c2Pm ≠ ArbitrageType.stablecoinArbitrage ∧
    classify_arbitrage c2Swaps c2Pm = ArbitrageType.triangleArbitrage := by
  refine ⟨by decide, by decide, by decide, by decide, by decide⟩

/-- C2 amended: a continuous swap list with at least two swaps whose
first input and last output tokens are both stable is classified
`StablecoinArbitrage`, except in the 2-swap case with equal first and
last tokens (a stable triangle), which is classified
`TriangleArbitrage`. -/
theorem c2_stable_classification_amended (swaps : List SwapInfo) (pm : PriceMap)
    (h2 : 2 ≤ swaps.length) (hc : isContinuous swaps = true)
    (hs : is_stable_pair swaps.headI.token0 (swaps.getLastD default).token1 pm = true) :
    classify_arbitrage swaps pm =
      (if swaps.length = 2 ∧ swaps.headI.token0 = (swaps.getLastD default).token1
       then ArbitrageType.triangleArbitrage else ArbitrageType.stablecoinArbitrage) := by
  match swaps with
  | [] => simp at h2
  | [_] => simp at h2
  | s0 :: s1 :: rest =>
    have hlast : (s0 :: s1 :: rest).getLastD default =
        (s1 :: rest).getLast (List.cons_ne_nil s1 rest) := by
      rw [List.getLastD_cons, List.getLastD_cons, List.getLast_eq_getLastD]
    simp only [List.headI, hlast] at hs ⊢
    cases rest with
    | nil =>
      have hl1 : ([s1].getLast (List.cons_ne_nil s1 [])) = s1 := rfl
      rw [hl1] at hs ⊢
      by_cases heq : s0.token0 = s1.token1
      · simp [classify_arbitrage, heq, hc]
      · simp [classify_arbitrage, heq, hc, hs]
    | cons s2 rest2 =>
      have hne : ¬((s0 :: s1 :: s2 :: rest2).length = 2 ∧
          s0.token0 = ((s1 :: s2 :: rest2).getLast
            (List.cons_ne_nil s1 (s2 :: rest2))).token1) := by
        simp
      rw [if_neg hne]
      simp only [classify_arbitrage, List.isEmpty_cons]
      rw [if_neg (by simp), if_pos hs]

/-- Witness for `c2_stable_classification_amended` at the C2 block. -/
theorem c2_amended_witness :
    2 ≤ c2Swaps.length ∧ isContinuous c2Swaps = true ∧
    is_stable_pair c2Swaps.headI.token0 (c2Swaps.getLastD default).token1 c2Pm = true ∧
    classify_arbitrage c2Swaps c2Pm =
      (if c2Swaps.length = 2 ∧ c2Swaps.headI.token0 = (c2Swaps.getLastD default).token1
       then ArbitrageType.triangleArbitrage else ArbitrageType.stablecoinArbitrage) :=
  ⟨by decide, by decide, by decide,
    c2_stable_classification_amended c2Swaps c2Pm (by decide) (by decide) (by decide)⟩

/-! ### C1: the greedy transfer matcher and its tie-break -/

/-- Modelled from the spec's matching rule with the claim's tie-break:
choose the unused incoming transfer with a different mint that minimises
the position distance, preferring the LATER (higher) position on ties. -/
def specChooseLater (out_idx : Nat) :
    List (Nat × Nat × Transfer × String) → Option (Nat × Nat × Transfer × String)
  | [] => Option.none
  | x :: xs =>
    Option.some (xs.foldl (fun best y =>
      if idxDist y.2.1 out_idx < idxDist best.2.1 out_idx ∨
         (idxDist y.2.1 out_idx = idxDist best.2.1 out_idx ∧ best.2.1 < y.2.1)
      then y else best) x)

/-- Modelled from the amended matching rule: nearest unused incoming
transfer with a different mint, preferring the EARLIER (lower) position
on ties. -/
def specChooseEarlier (out_idx : Nat) :
    List (Nat × Nat × Transfer × String) → Option (Nat × Nat × Transfer × String)
  | [] => Option.none
  | x :: xs =>
    Option.some (xs.foldl (fun best y =>
      if idxDist y.2.1 out_idx < idxDist best.2.1 out_idx ∨
         (idxDist y.2.1 out_idx = idxDist best.2.1 out_idx ∧ y.2.1 < best.2.1)
      then y else best) x)

/-- One matching step using an explicit chooser instead of the code's
`min_by_key`. -/
def specMatchStep
    (chooser : Nat → List (Nat × Nat × Transfer × String) →
      Option (Nat × Nat × Transfer × String))
    (incoming : List (Nat × Transfer × String))
    (st : List Nat × List SwapInfo) (out : Nat × Transfer × String) :
    List Nat × List SwapInfo :=
  let used := st.1
  let swaps := st.2
  let cands := (incoming.enum.filter (fun p => !(used.contains p.1))).filter
    (fun p => !(p.2.2.1.mint == out.2.1.mint))
  match chooser out.1 cands with
  | Option.none => (used, swaps)
  | Option.some chosen =>
    (used ++ [chosen.1], swaps ++ [mkSwapInfo out.2.1 out.2.2 chosen.2.2.1])

/-- The matching phase under an explicit chooser. -/
def specMatchTransfers
    (chooser : Nat → List (Nat × Nat × Transfer × String) →
      Option (Nat × Nat × Transfer × String))
    (outgoing incoming : List (Nat × Transfer × String)) : List SwapInfo :=
  (outgoing.foldl (specMatchStep chooser incoming) ([], [])).2

/-- The inner-set extraction as the claim words it (later tie-break). -/
def specExtractLater (instructions : List UiInstruction)
    (token_map : List (String × String × Nat)) (owner_map : List (String × String))
    (account_keys : List String) (signer : String) (outer_dex : String) :
    List SwapInfo :=
  let transfers := collectTransfers instructions token_map account_keys outer_dex
  let oi := splitSignerTransfers transfers owner_map signer
  specMatchTransfers specChooseLater oi.1 oi.2

/-- The inner-set extraction with the amended earlier tie-break. -/
def specExtractEarlier (instructions : List UiInstruction)
    (token_map : List (String × String × Nat)) (owner_map : List (String × String))
    (account_keys : List String) (signer : String) (outer_dex : String) :
    List SwapInfo :=
  let transfers := collectTransfers instructions token_map account_keys outer_dex
  let oi := splitSignerTransfers transfers owner_map signer
  specMatchTransfers specChooseEarlier oi.1 oi.2

/-- C1 counterexample: in the C1 block the outgoing transfer at position 1
has unused incoming transfers at positions 0 (mint `MB`) and 2 (mint
`MC`) at equal distance.  The parser pairs it with position 0 (the
earlier), producing `token1 = "MB"`; the claim's later tie-break would
produce `token1 = "MC"`. -/
theorem c1_counterexample :
    SwapParser.extract_swaps_from_inner_set c1Insts c1TokenMap c1OwnerMap [] "S" "DEX"
      = [⟨"MA", 7, "MB", 5, "DEX", 0, 0⟩] ∧
    specExtractLater c1Insts c1TokenMap c1OwnerMap [] "S" "DEX"
      = [⟨"MA", 7, "MC", 9, "DEX", 0, 0⟩] ∧
    SwapParser.extract_swaps_from_inner_set c1Insts c1TokenMap c1OwnerMap [] "S" "DEX"
      ≠ specExtractLater c1Insts c1TokenMap c1OwnerMap [] "S" "DEX" := by
  refine ⟨by decide, by decide, by decide⟩

/-- The outgoing/incoming partition is the pair of filters of the
enumerated transfer list. -/
theorem splitSignerTransfers_eq (transfers : List (Transfer × String))
    (owner_map : List (String × String)) (signer : String) :
    splitSignerTransfers transfers owner_map signer =
      (transfers.enum.filter
        (fun p => hmGet owner_map p.2.1.source == Option.some signer),
       transfers.enum.filter
        (fun p => hmGet owner_map p.2.1.destination == Option.some signer)) := by
  unfold splitSignerTransfers
  generalize transfers.enum = l
  suffices h : ∀ (l : List (Nat × Transfer × String))
      (acc : List (Nat × Transfer × String) × List (Nat × Transfer × String)),
      l.foldl (fun acc p =>
        let outgoing := acc.1
        let incoming := acc.2
        let idx := p.1
        let t := p.2.1
        let dex := p.2.2
        let outgoing :=
          if hmGet owner_map t.source == Option.some signer
          then outgoing ++ [(idx, t, dex)] else outgoing
        let incoming :=
          if hmGet owner_map t.destination == Option.some signer
          then incoming ++ [(idx, t, dex)] else incoming
        (outgoing, incoming)) acc =
      (acc.1 ++ l.filter (fun p => hmGet owner_map p.2.1.source == Option.some signer),
       acc.2 ++ l.filter
        (fun p => hmGet owner_map p.2.1.destination == Option.some signer)) by
    simpa using h l ([], [])
  intro l
  induction l with
  | nil => intro acc; simp
  | cons p rest ih =>
    intro acc
    rw [List.foldl_cons, ih, List.filter_cons, List.filter_cons]
    by_cases h1 : (hmGet owner_map p.2.1.source == Option.some signer) = true <;>
      by_cases h2 : (hmGet owner_map p.2.1.destination == Option.some signer) = true <;>
        simp [h1, h2]

/-- The enumerated list is strictly increasing in its position
component. -/
theorem enum_pairwise_fst {α : Type} (l : List α) :
    List.Pairwise (fun a b => a.1 < b.1) l.enum := by
  have := List.pairwise_lt_range l.length
  rw [← List.enum_map_fst l] at this
  exact (List.pairwise_map.1 this)

/-- On a candidate list whose positions strictly increase, the code's
`min_by_key` (first minimum) agrees with the spec chooser that breaks
ties toward the earlier position. -/
theorem minByKeyFirst_eq_specChooseEarlier (out_idx : Nat)
    (cands : List (Nat × Nat × Transfer × String))
    (hp : List.Pairwise (fun a b => a.2.1 < b.2.1) cands) :
    minByKeyFirst (fun p => idxDist p.2.1 out_idx) cands =
      specChooseEarlier out_idx cands := by
  match cands, hp with
  | [], _ => rfl
  | x :: xs, hp =>
    simp only [minByKeyFirst, specChooseEarlier, Option.some.injEq]
    have hx : ∀ y ∈ xs, x.2.1 < y.2.1 := (List.pairwise_cons.1 hp).1
    have hxs : List.Pairwise (fun a b => a.2.1 < b.2.1) xs := (List.pairwise_cons.1 hp).2
    clear hp
    induction xs generalizing x with
    | nil => rfl
    | cons y ys ih =>
      have hxy : x.2.1 < y.2.1 := hx y (List.mem_cons_self y ys)
      have hstep :
          (if idxDist y.2.1 out_idx < idxDist x.2.1 out_idx ∨
              (idxDist y.2.1 out_idx = idxDist x.2.1 out_idx ∧ y.2.1 < x.2.1)
           then y else x) =
          (if idxDist y.2.1 out_idx < idxDist x.2.1 out_idx then y else x) := by
        by_cases hlt : idxDist y.2.1 out_idx < idxDist x.2.1 out_idx
        · simp [hlt]
        · have hnor : ¬(idxDist y.2.1 out_idx < idxDist x.2.1 out_idx ∨
              (idxDist y.2.1 out_idx = idxDist x.2.1 out_idx ∧ y.2.1 < x.2.1)) := by
            rintro (h | ⟨_, hyx⟩)
            · exact hlt h
            · exact Nat.lt_asymm hxy hyx
          rw [if_neg hnor, if_neg hlt]
      rw [List.foldl_cons, List.foldl_cons, hstep]
      have hbest : ∀ z ∈ ys,
          (if idxDist y.2.1 out_idx < idxDist x.2.1 out_idx then y else x).2.1 < z.2.1 := by
        intro z hz
        by_cases hlt : idxDist y.2.1 out_idx < idxDist x.2.1 out_idx
        · simpa [hlt] using (List.pairwise_cons.1 hxs).1 z hz
        · simpa [hlt] using hx z (List.mem_cons_of_mem y hz)
      exact ih _ hbest (List.pairwise_cons.1 hxs).2

/-- Pairwise relations transport along `enum` to the value component. -/
theorem enum_pairwise_snd {α : Type} (R : α → α → Prop) (l : List α)
    (h : List.Pairwise R l) : List.Pairwise (fun a b => R a.2 b.2) l.enum := by
  rw [← List.enum_map_snd l] at h
  exact List.pairwise_map.1 h

/-- On an incoming list whose positions strictly increase, the code's
matching step equals the spec matching step with the earlier
tie-break. -/
theorem matchStep_eq_specMatchStep (incoming : List (Nat × Transfer × String))
    (hp : List.Pairwise (fun a b => a.1 < b.1) incoming)
    (st : List Nat × List SwapInfo) (out : Nat × Transfer × String) :
    matchStep incoming st out = specMatchStep specChooseEarlier incoming st out := by
  unfold matchStep specMatchStep
  have henum : List.Pairwise (fun a b => a.2.1 < b.2.1) incoming.enum :=
    enum_pairwise_snd (fun a b => a.1 < b.1) incoming hp
  have hcands : List.Pairwise (fun a b => a.2.1 < b.2.1)
      ((incoming.enum.filter (fun p => !(st.1.contains p.1))).filter
        (fun p => !(p.2.2.1.mint == out.2.1.mint))) :=
    ((henum.sublist (List.filter_sublist _)).sublist (List.filter_sublist _))
  simp only [minByKeyFirst_eq_specChooseEarlier out.1 _ hcands]

/-- C1 amended: the parser's matching phase pairs each outgoing transfer,
in order, with the nearest unused incoming transfer of a different mint,
and on ties at equal distance chooses the EARLIER (lower) position in the
combined transfer list (Rust `min_by_key` returns the first minimum). -/
theorem c1_tie_break_amended (instructions : List UiInstruction)
    (token_map : List (String × String × Nat)) (owner_map : List (String × String))
    (account_keys : List String) (signer : String) (outer_dex : String) :
    SwapParser.extract_swaps_from_inner_set instructions token_map owner_map
        account_keys signer outer_dex =
      specExtractEarlier instructions token_map owner_map account_keys signer
        outer_dex := by
  unfold SwapParser.extract_swaps_from_inner_set specExtractEarlier
  set transfers := collectTransfers instructions token_map account_keys outer_dex
  have hsplit := splitSignerTransfers_eq transfers owner_map signer
  have hinc : List.Pairwise (fun a b => a.1 < b.1)
      (splitSignerTransfers transfers owner_map signer).2 := by
    rw [hsplit]
    exact (enum_pairwise_fst transfers).sublist (List.filter_sublist _)
  unfold matchTransfers specMatchTransfers
  exact congrArg Prod.snd (List.foldl_ext _ _ ([], [])
    (fun st out _ => matchStep_eq_specMatchStep _ hinc st out))

/-! ### C5: swap invariants -/

/-- Every transfer collected from an inner-instruction set has a
positive amount (zero-amount transfers are dropped). -/
theorem collectTransfers_pos (instructions : List UiInstruction)
    (token_map : List (String × String × Nat)) (account_keys : List String)
    (outer_dex : String) :
    ∀ p ∈ collectTransfers instructions token_map account_keys outer_dex,
      0 < p.1.amount := by
  unfold collectTransfers
  refine foldl_preserve_mem
    (fun (st : String × List (Transfer × String)) => ∀ p ∈ st.2, 0 < p.1.amount) _ _ _
    (by intro p hp; simp at hp) ?_
  intro st inst _ hP
  unfold collectStep
  dsimp only
  split
  · exact hP
  · split
    · rename_i info heq
      split
      · rename_i t hparse
        split
        · rename_i hpos
          intro p hp
          rcases List.mem_append.1 hp with h | h
          · exact hP p h
          · rcases List.mem_singleton.1 h with rfl
            exact hpos
        · exact hP
      · exact hP
    · exact hP

/-- Every swap produced by the matching phase comes from one outgoing
transfer and one incoming transfer of a different mint. -/
theorem matchTransfers_mem (outgoing incoming : List (Nat × Transfer × String)) :
    ∀ s ∈ matchTransfers outgoing incoming,
      ∃ out ∈ outgoing, ∃ q ∈ incoming,
        (q.2.1.mint == out.2.1.mint) = false ∧
        s = mkSwapInfo out.2.1 out.2.2 q.2.1 := by
  unfold matchTransfers
  refine foldl_preserve_mem
    (fun (st : List Nat × List SwapInfo) => ∀ s ∈ st.2, ∃ out ∈ outgoing, ∃ q ∈ incoming,
      (q.2.1.mint == out.2.1.mint) = false ∧ s = mkSwapInfo out.2.1 out.2.2 q.2.1)
    _ _ _ (by intro s hs; simp at hs) ?_
  intro st out hout hP
  cases hmin : minByKeyFirst (fun p => idxDist p.2.1 out.1)
      ((incoming.enum.filter (fun p => !(st.1.contains p.1))).filter
        (fun p => !(p.2.2.1.mint == out.2.1.mint))) with
  | none =>
    intro s hs
    simp only [matchStep, hmin] at hs
    exact hP s hs
  | some chosen =>
    intro s hs
    simp only [matchStep, hmin] at hs
    rcases List.mem_append.1 hs with h | h
    · exact hP s h
    · rcases List.mem_singleton.1 h with rfl
      have hc := minByKeyFirst_mem _ _ _ hmin
      have hc2 := List.mem_filter.1 hc
      have hc3 := List.mem_filter.1 hc2.1
      have hinc : chosen.2 ∈ incoming := by
        have hpair : (chosen.1, chosen.2) ∈ incoming.enum := by
          simpa using hc3.1
        obtain ⟨hlt, heq⟩ := List.mem_enum hpair
        rw [heq]
        exact List.getElem_mem hlt
      refine ⟨out, hout, chosen.2, hinc, ?_, rfl⟩
      simpa using hc2.2

/-- Swap invariants at the level of one inner-instruction set. -/
theorem extract_swaps_from_inner_set_inv (instructions : List UiInstruction)
    (token_map : List (String × String × Nat)) (owner_map : List (String × String))
    (account_keys : List String) (signer : String) (outer_dex : String) :
    ∀ s ∈ SwapParser.extract_swaps_from_inner_set instructions token_map owner_map
        account_keys signer outer_dex,
      s.token0 ≠ s.token1 ∧ 0 < s.amount0 ∧ 0 < s.amount1 := by
  intro s hs
  simp only [SwapParser.extract_swaps_from_inner_set] at hs
  obtain ⟨out, hout, q, hq, hmint, rfl⟩ := matchTransfers_mem _ _ s hs
  rw [splitSignerTransfers_eq] at hout hq
  have hmemT : ∀ (p : Nat × Transfer × String),
      p ∈ (collectTransfers instructions token_map account_keys outer_dex).enum →
      0 < p.2.1.amount := by
    intro p hp
    have hpair : (p.1, p.2) ∈
        (collectTransfers instructions token_map account_keys outer_dex).enum := by
      simpa using hp
    obtain ⟨hlt, heq⟩ := List.mem_enum hpair
    have : p.2 ∈ collectTransfers instructions token_map account_keys outer_dex := by
      rw [heq]; exact List.getElem_mem hlt
    exact collectTransfers_pos _ _ _ _ p.2 this
  have hpos0 : 0 < out.2.1.amount := hmemT out (List.mem_filter.1 hout).1
  have hpos1 : 0 < q.2.1.amount := hmemT q (List.mem_filter.1 hq).1
  refine ⟨?_, ?_, ?_⟩
  · exact fun h => (beq_eq_false_iff_ne.1 hmint) h.symm
  · exact div_pos (by exact_mod_cast hpos0) (by positivity)
  · exact div_pos (by exact_mod_cast hpos1) (by positivity)

/-- C5: every swap produced by `extract_swaps` has distinct tokens and
strictly positive amounts on both sides (zero-amount transfers having
been dropped before matching). -/
theorem c5_swap_invariants (tx : FetchedTransaction) :
    ∀ s ∈ SwapParser.extract_swaps tx,
      s.token0 ≠ s.token1 ∧ 0 < s.amount0 ∧ 0 < s.amount1 := by
  intro s hs
  cases hm : tx.meta with
  | none => rw [SwapParser.extract_swaps] at hs; simp only [hm] at hs; simp at hs
  | some meta =>
    cases hi : meta.inner_instructions with
    | some inner =>
      rw [SwapParser.extract_swaps] at hs
      simp only [hm, hi] at hs
      rcases (mem_foldl_append _ inner [] s).1 hs with h | ⟨b, _, hsb⟩
      · simp at h
      · exact extract_swaps_from_inner_set_inv _ _ _ _ _ _ s hsb
    | none =>
      rw [SwapParser.extract_swaps] at hs
      simp only [hm, hi] at hs
      simp at hs
    | skip =>
      rw [SwapParser.extract_swaps] at hs
      simp only [hm, hi] at hs
      simp at hs

/-- Witness for `c5_swap_invariants` at the C7 block's front-run
transaction, which parses to one swap. -/
theorem c5_witness :
    (SwapParser.extract_swaps txA5).headI ∈ SwapParser.extract_swaps txA5 ∧
    ((SwapParser.extract_swaps txA5).headI.token0 ≠
      (SwapParser.extract_swaps txA5).headI.token1 ∧
     0 < (SwapParser.extract_swaps txA5).headI.amount0 ∧
     0 < (SwapParser.extract_swaps txA5).headI.amount1) :=
  ⟨by decide, c5_swap_invariants txA5 _ (by decide)⟩

/-! ### C8: token-change extraction -/

instance : Inhabited TokenChange := ⟨⟨0, "", "", 0, 0, 0, 0⟩⟩

/-- Casting to `i64` and subtracting with wrap equals the wrapped true
difference. -/
theorem i64Sub_ofU64 (a b : Nat) :
    i64Sub (i64OfU64 a) (i64OfU64 b) = wrap64 ((a : Int) - (b : Int)) := by
  unfold i64Sub i64OfU64 wrap64
  omega

/-- A successful lookup in an association list comes from a member pair
with a matching key. -/
theorem hmGet_some_mem {κ β : Type} [BEq κ] (m : List (κ × β)) (k : κ) (v : β)
    (h : hmGet m k = Option.some v) : ∃ p ∈ m, p.2 = v ∧ (p.1 == k) = true := by
  unfold hmGet at h
  cases hf : m.find? (fun p => p.1 == k) with
  | none => rw [hf] at h; simp at h
  | some p =>
    rw [hf] at h
    have hpk : (p.1 == k) = true := by
      have hh := List.find?_some hf
      simpa using hh
    exact ⟨p, List.mem_of_find?_eq_some hf, Option.some.inj h, hpk⟩

/-- Every pair in the balance index map pairs an entry of the balance
table with its own account index. -/
theorem balances_fold_mem (balances : List UiTransactionTokenBalance) :
    ∀ p ∈ balances.foldl (fun m b => hmInsert m b.account_index b)
      ([] : List (Nat × UiTransactionTokenBalance)),
      p.2 ∈ balances ∧ p.2.account_index = p.1 := by
  refine foldl_preserve_mem
    (fun (m : List (Nat × UiTransactionTokenBalance)) =>
      ∀ p ∈ m, p.2 ∈ balances ∧ p.2.account_index = p.1) _ _ _ (by simp) ?_
  intro m b hb hP p hp
  unfold hmInsert at hp
  rcases List.mem_cons.1 hp with rfl | hp
  · exact ⟨hb, rfl⟩
  · exact hP p (List.mem_of_mem_filter hp)

/-- A balance-map lookup at `idx` yields a table entry with account
index `idx`. -/
theorem balances_hmGet (balances : List UiTransactionTokenBalance) (idx : Nat)
    (b : UiTransactionTokenBalance)
    (h : hmGet (balances.foldl (fun m bb => hmInsert m bb.account_index bb) []) idx =
      Option.some b) : b ∈ balances ∧ b.account_index = idx := by
  obtain ⟨p, hp, rfl, hk⟩ := hmGet_some_mem _ _ _ h
  obtain ⟨hmem, hidx⟩ := balances_fold_mem balances p hp
  exact ⟨hmem, by rw [hidx]; exact eq_of_beq hk⟩

/-- C8: every token change produced by `extract_token_changes` has
`delta` equal to `post_amount − pre_amount` computed in signed 64-bit
arithmetic, has `pre_amount ≠ post_amount`, and comes from account
indices present in both the pre and post token-balance tables, with
mint, decimals and owner taken from the post side. -/
theorem c8_token_change_delta (tx : FetchedTransaction) :
    ∀ tc ∈ SwapParser.extract_token_changes tx,
      tc.delta = wrap64 ((tc.post_amount : Int) - (tc.pre_amount : Int)) ∧
      tc.pre_amount ≠ tc.post_amount ∧
      ∃ meta, tx.meta = Option.some meta ∧
        ∃ preList postList,
          meta.pre_token_balances = OptionSerializer.some preList ∧
          meta.post_token_balances = OptionSerializer.some postList ∧
          (∃ b ∈ preList, b.account_index = tc.account_index ∧
            parseU64 b.ui_token_amount.amount = Option.some tc.pre_amount) ∧
          (∃ b ∈ postList, b.account_index = tc.account_index ∧
            parseU64 b.ui_token_amount.amount = Option.some tc.post_amount ∧
            tc.mint = b.mint ∧ tc.decimals = b.ui_token_amount.decimals ∧
            tc.owner = (match b.owner with
              | OptionSerializer.some o => o
              | _ => "")) := by
  intro tc htc
  cases hm : tx.meta with
  | none =>
    rw [SwapParser.extract_token_changes] at htc
    simp only [hm] at htc
    simp at htc
  | some meta =>
    cases hpre : meta.pre_token_balances with
    | some preList =>
      cases hpost : meta.post_token_balances with
      | some postList =>
        rw [SwapParser.extract_token_changes] at htc
        simp only [hm, hpre, hpost] at htc
        obtain ⟨idx, _, hf⟩ := List.mem_filterMap.1 htc
        cases hgpre : hmGet (preList.foldl
            (fun m b => hmInsert m b.account_index b) []) idx with
        | none => simp only [hgpre] at hf; cases hf
        | some pre =>
          cases hgpost : hmGet (postList.foldl
              (fun m b => hmInsert m b.account_index b) []) idx with
          | none => simp only [hgpre, hgpost] at hf; cases hf
          | some post =>
            simp only [hgpre, hgpost] at hf
            cases hppre : parseU64 pre.ui_token_amount.amount with
            | none => simp only [hppre] at hf; cases hf
            | some pre_amt =>
              cases hppost : parseU64 post.ui_token_amount.amount with
              | none => simp only [hppre, hppost] at hf; cases hf
              | some post_amt =>
                simp only [hppre, hppost] at hf
                by_cases heq : (pre_amt == post_amt) = true
                · rw [if_pos heq] at hf
                  cases hf
                · rw [if_neg heq] at hf
                  obtain rfl := Option.some.inj hf
                  obtain ⟨hpreMem, hpreIdx⟩ := balances_hmGet _ _ _ hgpre
                  obtain ⟨hpostMem, hpostIdx⟩ := balances_hmGet _ _ _ hgpost
                  refine ⟨i64Sub_ofU64 post_amt pre_amt,
                    fun h => heq (beq_iff_eq.2 h), meta, rfl,
                    preList, postList, hpre, hpost,
                    ⟨pre, hpreMem, hpreIdx, hppre⟩,
                    ⟨post, hpostMem, hpostIdx, hppost, rfl, rfl, rfl⟩⟩
      | none =>
        rw [SwapParser.extract_token_changes] at htc
        simp only [hm, hpre, hpost] at htc
        simp at htc
      | skip =>
        rw [SwapParser.extract_token_changes] at htc
        simp only [hm, hpre, hpost] at htc
        simp at htc
    | none =>
      rw [SwapParser.extract_token_changes] at htc
      simp only [hm, hpre] at htc
      simp at htc
    | skip =>
      rw [SwapParser.extract_token_changes] at htc
      simp only [hm, hpre] at htc
      simp at htc

/-- Witness for `c8_token_change_delta` at the C6 block's front-run
transaction, which nets the signer +5 of mint `X`. -/
theorem c8_witness :
    (SwapParser.extract_token_changes txF0).headI ∈
      SwapParser.extract_token_changes txF0 ∧
    ((SwapParser.extract_token_changes txF0).headI.delta =
      wrap64 (((SwapParser.extract_token_changes txF0).headI.post_amount : Int) -
        ((SwapParser.extract_token_changes txF0).headI.pre_amount : Int)) ∧
     (SwapParser.extract_token_changes txF0).headI.pre_amount ≠
      (SwapParser.extract_token_changes txF0).headI.post_amount ∧
     ∃ meta, txF0.meta = Option.some meta ∧
        ∃ preList postList,
          meta.pre_token_balances = OptionSerializer.some preList ∧
          meta.post_token_balances = OptionSerializer.some postList ∧
          (∃ b ∈ preList,
            b.account_index = (SwapParser.extract_token_changes txF0).headI.account_index ∧
            parseU64 b.ui_token_amount.amount =
              Option.some (SwapParser.extract_token_changes txF0).headI.pre_amount) ∧
          (∃ b ∈ postList,
            b.account_index = (SwapParser.extract_token_changes txF0).headI.account_index ∧
            parseU64 b.ui_token_amount.amount =
              Option.some (SwapParser.extract_token_changes txF0).headI.post_amount ∧
            (SwapParser.extract_token_changes txF0).headI.mint = b.mint ∧
            (SwapParser.extract_token_changes txF0).headI.decimals =
              b.ui_token_amount.decimals ∧
            (SwapParser.extract_token_changes txF0).headI.owner = (match b.owner with
              | OptionSerializer.some o => o
              | _ => ""))) :=
  ⟨by decide, c8_token_change_delta txF0 _ (by decide)⟩

/-! ### C9: soft failure of the parser -/

/-- A fold appending only empty lists yields the empty list. -/
theorem foldl_append_nil {α β : Type} (f : β → List α) (l : List β)
    (h : ∀ b ∈ l, f b = []) :
    l.foldl (fun acc b => acc ++ f b) [] = [] := by
  rw [List.eq_nil_iff_forall_not_mem]
  intro a ha
  rcases (mem_foldl_append f l [] a).1 ha with h0 | ⟨b, hb, hfb⟩
  · simp at h0
  · rw [h b hb] at hfb
    simp at hfb

/-- An inner set that produces no transfer candidates produces no
swaps. -/
theorem extract_inner_set_nil (instructions : List UiInstruction)
    (token_map : List (String × String × Nat)) (owner_map : List (String × String))
    (account_keys : List String) (signer : String) (outer_dex : String)
    (h : collectTransfers instructions token_map account_keys outer_dex = []) :
    SwapParser.extract_swaps_from_inner_set instructions token_map owner_map
      account_keys signer outer_dex = [] := by
  simp only [SwapParser.extract_swaps_from_inner_set, h]
  rfl

/-- C9: `extract_swaps` is total and fails softly — a transaction with no
metadata, no inner instructions, or no parseable transfers yields the
empty swap list, and no error is raised. -/
theorem c9_soft_failure (tx : FetchedTransaction) :
    (tx.meta = Option.none → SwapParser.extract_swaps tx = []) ∧
    (∀ meta, tx.meta = Option.some meta →
      (meta.inner_instructions = OptionSerializer.none ∨
       meta.inner_instructions = OptionSerializer.skip) →
      SwapParser.extract_swaps tx = []) ∧
    (∀ meta inner, tx.meta = Option.some meta →
      meta.inner_instructions = OptionSerializer.some inner →
      (∀ inner_set ∈ inner, collectTransfers inner_set.instructions
        (SwapParser.build_token_map tx) (SwapParser.get_account_keys tx)
        (((SwapParser.get_outer_instructions tx).get? inner_set.index).getD "") = []) →
      SwapParser.extract_swaps tx = []) := by
  refine ⟨?_, ?_, ?_⟩
  · intro hm
    rw [SwapParser.extract_swaps]
    simp only [hm]
  · intro meta hm hcase
    rw [SwapParser.extract_swaps]
    rcases hcase with hi | hi <;> simp only [hm, hi]
  · intro meta inner hm hi hempty
    rw [SwapParser.extract_swaps]
    simp only [hm, hi]
    exact foldl_append_nil _ inner (fun b hb => extract_inner_set_nil _ _ _ _ _ _
      (hempty b hb))

/-- A transaction with no metadata at all. -/
def txNone : FetchedTransaction := ⟨"nometa", EncodedTransaction.other, Option.none, 0⟩

/-- Witness for `c9_soft_failure`: a transaction without metadata yields
the empty swap list. -/
theorem c9_witness :
    txNone.meta = Option.none ∧ SwapParser.extract_swaps txNone = [] :=
  ⟨rfl, (c9_soft_failure txNone).1 rfl⟩

/-! ### C4: the profit filter -/

/-- The profitability record of either kind of event. -/
def profitabilityOf : MevEvent → Profitability
  | MevEvent.arbitrage a => a.profitability
  | MevEvent.sandwich s => s.profitability

/-- An arbitrage event's profit is its revenue minus its fees, by
construction. -/
theorem arbitrage_event_of_profit (tx : FetchedTransaction) (signer : String)
    (swaps : List SwapInfo) (token_changes : List TokenChange)
    (program_addresses : List String) (price_map : PriceMap)
    (arbitrage_type : ArbitrageType) :
    (arbitrage_event_of tx signer swaps token_changes program_addresses price_map
        arbitrage_type).profitability.profit_usd =
      (arbitrage_event_of tx signer swaps token_changes program_addresses price_map
        arbitrage_type).profitability.revenue_usd -
      (arbitrage_event_of tx signer swaps token_changes program_addresses price_map
        arbitrage_type).profitability.fees_usd := rfl

/-- A sandwich event's profit is its revenue minus its fees, by
construction. -/
theorem sandwich_event_of_profit (slot : Nat) (price_map : PriceMap)
    (candidate : OwnedSandwich) :
    (sandwich_event_of slot price_map candidate).profitability.profit_usd =
      (sandwich_event_of slot price_map candidate).profitability.revenue_usd -
      (sandwich_event_of slot price_map candidate).profitability.fees_usd := rfl

/-- Inversion of a successful arbitrage finalisation. -/
theorem detect_arbitrage_with_prices_some {tx : FetchedTransaction}
    {swaps : List SwapInfo} {token_changes : List TokenChange}
    {program_addresses : List String} {price_map : PriceMap}
    {min_swap_count : Nat} {a : ArbitrageEvent}
    (h : detect_arbitrage_with_prices tx swaps token_changes program_addresses
      price_map min_swap_count = Option.some a) :
    ∃ signer, tx.signer = Option.some signer ∧
      a = arbitrage_event_of tx signer swaps token_changes program_addresses
        price_map (classify_arbitrage swaps price_map) := by
  unfold detect_arbitrage_with_prices at h
  cases hsig : tx.signer with
  | none => rw [hsig] at h; cases h
  | some signer =>
    simp only [hsig] at h
    by_cases hlen : swaps.length < min_swap_count
    · rw [if_pos hlen] at h; cases h
    · rw [if_neg hlen] at h
      by_cases hlt : (classify_arbitrage swaps price_map ==
          ArbitrageType.longTail) = true
      · rw [if_pos hlt] at h; cases h
      · rw [if_neg hlt] at h
        split at h
        · cases h
        · exact ⟨signer, rfl, (Option.some.inj h).symm⟩

/-- Inversion of sandwich profitability: every emitted sandwich event is
the event of some candidate, with positive profit. -/
theorem calc_sandwich_mem {slot : Nat} {candidates : List OwnedSandwich}
    {price_map : PriceMap} {s : SandwichEvent}
    (h : s ∈ calculate_sandwich_profitability slot candidates price_map) :
    ∃ cand ∈ candidates, s = sandwich_event_of slot price_map cand ∧
      0 < (sandwich_event_of slot price_map cand).profitability.profit_usd := by
  obtain ⟨cand, hcand, hf⟩ := List.mem_filterMap.1 h
  by_cases hp : (sandwich_event_of slot price_map cand).profitability.profit_usd ≤ 0
  · rw [if_pos hp] at hf; cases hf
  · rw [if_neg hp] at hf
    exact ⟨cand, hcand, (Option.some.inj hf).symm, lt_of_not_le hp⟩

/-- Inversion of `detect_mev` membership into the arbitrage and sandwich
sides. -/
theorem detect_mev_mem {price_map : PriceMap} {slot : Nat}
    {transactions : List FetchedTransaction}
    {groups : List (String × List FetchedTransaction)} {e : MevEvent}
    (he : e ∈ detect_mev price_map slot transactions groups) :
    (∃ a, e = MevEvent.arbitrage a ∧ 0 < a.profitability.profit_usd ∧
      ∃ c ∈ arbitrage_candidates transactions,
        detect_arbitrage_with_prices c.1 c.2.1 c.2.2.1 c.2.2.2 price_map
          MIN_SWAP_COUNT = Option.some a) ∨
    (∃ s, e = MevEvent.sandwich s ∧
      s ∈ calculate_sandwich_profitability slot
        (sandwich_candidates transactions groups) price_map) := by
  unfold detect_mev at he
  split at he
  · cases he
  · rcases List.mem_append.1 he with h | h
    · obtain ⟨a, ha, rfl⟩ := List.mem_map.1 h
      obtain ⟨ha2, ha3⟩ := List.mem_filter.1 ha
      obtain ⟨c, hc, hdet⟩ := List.mem_filterMap.1 ha2
      exact Or.inl ⟨a, rfl, of_decide_eq_true ha3, c, hc, hdet⟩
    · obtain ⟨s, hsmem, rfl⟩ := List.mem_map.1 h
      exact Or.inr ⟨s, rfl, hsmem⟩

/-- C4: every event emitted by `detect_mev` has `profit_usd > 0` and
`profit_usd = revenue_usd − fees_usd` (exactly, in the rational model of
the `f64` accounting). -/
theorem c4_profit_filter (price_map : PriceMap) (slot : Nat)
    (transactions : List FetchedTransaction)
    (groups : List (String × List FetchedTransaction)) :
    ∀ e ∈ detect_mev price_map slot transactions groups,
      0 < (profitabilityOf e).profit_usd ∧
      (profitabilityOf e).profit_usd =
        (profitabilityOf e).revenue_usd - (profitabilityOf e).fees_usd := by
  intro e he
  rcases detect_mev_mem he with ⟨a, rfl, hpos, c, _, hdet⟩ | ⟨s, rfl, hmem⟩
  · obtain ⟨signer, _, rfl⟩ := detect_arbitrage_with_prices_some hdet
    exact ⟨hpos, arbitrage_event_of_profit _ _ _ _ _ _ _⟩
  · obtain ⟨cand, _, rfl, hpos⟩ := calc_sandwich_mem hmem
    exact ⟨hpos, sandwich_event_of_profit _ _ _⟩

/-- Witness for `c4_profit_filter` at the C7 block's first emitted
event. -/
theorem c4_witness :
    (detect_mev pm7 1 txs7 g7).headI ∈ detect_mev pm7 1 txs7 g7 ∧
    (0 < (profitabilityOf ((detect_mev pm7 1 txs7 g7).headI)).profit_usd ∧
     (profitabilityOf ((detect_mev pm7 1 txs7 g7).headI)).profit_usd =
       (profitabilityOf ((detect_mev pm7 1 txs7 g7).headI)).revenue_usd -
       (profitabilityOf ((detect_mev pm7 1 txs7 g7).headI)).fees_usd) :=
  ⟨by decide, c4_profit_filter pm7 1 txs7 g7 _ (by decide)⟩

/-! ### C6: unsupported profit tokens -/

/-- The unsupported list only grows along the accumulation fold. -/
theorem usd_fold_mono (price_map : PriceMap) (net : List (String × ℚ × Nat))
    (acc : ℚ × ℚ × List String) :
    ∀ m ∈ acc.2.2, m ∈ (net.foldl (usdStep price_map) acc).2.2 := by
  induction net generalizing acc with
  | nil => intro m hm; exact hm
  | cons r rest ih =>
    intro m hm
    rw [List.foldl_cons]
    refine ih (usdStep price_map acc r) m ?_
    unfold usdStep
    dsimp only
    split
    · split
      · exact List.mem_append_left _ hm
      · exact hm
    · split
      · split
        · exact List.mem_append_left _ hm
        · exact hm
      · exact hm

/-- Every significant net position with unknown price lands in the
unsupported list. -/
theorem accumulateUsd_unsupported (price_map : PriceMap)
    (net : List (String × ℚ × Nat)) :
    ∀ q ∈ net, 1 < |q.2.1| → (hmGet price_map q.1).getD 0 = 0 →
      q.1 ∈ (accumulateUsd price_map net).2.2 := by
  unfold accumulateUsd
  generalize ((0, 0, []) : ℚ × ℚ × List String) = acc
  induction net generalizing acc with
  | nil => intro q hq; cases hq
  | cons r rest ih =>
    intro q hq hsig hprice
    rcases List.mem_cons.1 hq with rfl | hq
    · rw [List.foldl_cons]
      refine usd_fold_mono price_map rest (usdStep price_map acc q) q.1 ?_
      unfold usdStep
      dsimp only
      have hdec : (decide ((hmGet price_map q.1).getD 0 = 0) &&
          decide (1 < |q.2.1|)) = true := by
        rw [decide_eq_true hprice, decide_eq_true hsig]
        rfl
      have hne : q.2.1 ≠ 0 := by
        intro h0
        rw [h0] at hsig
        norm_num at hsig
      rcases lt_trichotomy q.2.1 0 with hneg | h0 | hpos
      · rw [if_neg (not_lt_of_lt hneg), if_pos hneg, hdec, if_pos rfl]
        exact List.mem_append_right _ (List.mem_singleton.2 rfl)
      · exact absurd h0 hne
      · rw [if_pos hpos, hdec, if_pos rfl]
        exact List.mem_append_right _ (List.mem_singleton.2 rfl)
    · rw [List.foldl_cons]
      exact ih (usdStep price_map acc r) q hq hsig hprice

/-- Every significant aggregated signer change with unknown price appears
in the arbitrage event's unsupported list. -/
theorem arbitrage_event_of_unsupported (tx : FetchedTransaction) (signer : String)
    (swaps : List SwapInfo) (token_changes : List TokenChange)
    (program_addresses : List String) (price_map : PriceMap)
    (arbitrage_type : ArbitrageType) :
    ∀ stc ∈ (arbitrage_event_of tx signer swaps token_changes program_addresses
        price_map arbitrage_type).token_changes,
      1 < |(stc.delta : ℚ) / 10 ^ stc.decimals| →
      (hmGet price_map stc.mint).getD 0 = 0 →
      stc.mint ∈ (arbitrage_event_of tx signer swaps token_changes
        program_addresses price_map arbitrage_type).profitability.unsupported_profit_tokens := by
  intro stc hstc hsig hprice
  obtain ⟨p, hp, rfl⟩ := List.mem_map.1 hstc
  have hq : (p.1, (p.2.1 : ℚ) / 10 ^ p.2.2, p.2.2) ∈
      ((token_changes.filter (fun tc => tc.owner == signer)).foldl
        (fun m tc => entryAdd m tc.mint tc.delta tc.decimals) []).map
        (fun e => (e.1, (e.2.1 : ℚ) / 10 ^ e.2.2, e.2.2)) :=
    List.mem_map.2 ⟨p, hp, rfl⟩
  exact accumulateUsd_unsupported price_map _ _ hq hsig hprice

/-- A sandwich event's unsupported list is always empty, by
construction. -/
theorem sandwich_event_of_unsupported (slot : Nat) (price_map : PriceMap)
    (candidate : OwnedSandwich) :
    (sandwich_event_of slot price_map
      candidate).profitability.unsupported_profit_tokens = [] := rfl

/-- C6 amended: for every ArbitrageEvent emitted by `detect_mev`, every
aggregated signer token change whose net amount exceeds 1.0 in absolute
value and whose USD price is unknown appears in
`unsupported_profit_tokens`; every emitted SandwichEvent, however, has an
EMPTY `unsupported_profit_tokens` list (the sandwich path hard-codes
`vec![]`). -/
theorem c6_unsupported_amended (price_map : PriceMap) (slot : Nat)
    (transactions : List FetchedTransaction)
    (groups : List (String × List FetchedTransaction)) :
    ∀ e ∈ detect_mev price_map slot transactions groups,
      (∀ a, e = MevEvent.arbitrage a →
        ∀ stc ∈ a.token_changes, 1 < |(stc.delta : ℚ) / 10 ^ stc.decimals| →
          (hmGet price_map stc.mint).getD 0 = 0 →
          stc.mint ∈ a.profitability.unsupported_profit_tokens) ∧
      (∀ s, e = MevEvent.sandwich s →
        s.profitability.unsupported_profit_tokens = []) := by
  intro e he
  rcases detect_mev_mem he with ⟨a, rfl, _, c, _, hdet⟩ | ⟨s, rfl, hmem⟩
  · refine ⟨?_, ?_⟩
    · intro a2 ha2
      injection ha2 with ha2
      subst ha2
      obtain ⟨signer, _, rfl⟩ := detect_arbitrage_with_prices_some hdet
      exact arbitrage_event_of_unsupported _ _ _ _ _ _ _
    · intro s hs; cases hs
  · refine ⟨fun a ha => MevEvent.noConfusion ha, ?_⟩
    intro s2 hs2
    injection hs2 with hs2
    subst hs2
    obtain ⟨cand, _, rfl, _⟩ := calc_sandwich_mem hmem
    exact sandwich_event_of_unsupported _ _ _

/-- C6 counterexample: in the C6 block the emitted sandwich's combined
signer changes net +5 of the unpriced mint `X`, yet the event's
`unsupported_profit_tokens` list is empty — the claim fails for
SandwichEvents. -/
theorem c6_counterexample :
    validGrouping txs6 g6 ∧
    ¬ (∀ e ∈ detect_mev pm6 1 txs6 g6, ∀ s, e = MevEvent.sandwich s →
        ∀ stc ∈ s.token_changes, 1 < |(stc.delta : ℚ) / 10 ^ stc.decimals| →
          (hmGet pm6 stc.mint).getD 0 = 0 →
          stc.mint ∈ s.profitability.unsupported_profit_tokens) := by
  constructor
  · refine ⟨by decide, ?_⟩
    intro p hp
    rcases List.mem_singleton.1 hp with rfl
    rfl
  · intro h
    have := h (MevEvent.sandwich ((sandwichesOf (detect_mev pm6 1 txs6 g6)).headI))
      (by decide) ((sandwichesOf (detect_mev pm6 1 txs6 g6)).headI) rfl
      ⟨"X", 5, 0⟩ (by decide) (by decide) (by decide)
    exact absurd this (by decide)

/-- Witness for `c6_unsupported_amended` at the C6 block's sandwich. -/
theorem c6_amended_witness :
    MevEvent.sandwich ((sandwichesOf (detect_mev pm6 1 txs6 g6)).headI)
      ∈ detect_mev pm6 1 txs6 g6 ∧
    ((sandwichesOf (detect_mev pm6 1 txs6 g6)).headI).profitability.unsupported_profit_tokens
      = [] :=
  ⟨by decide, (c6_unsupported_amended pm6 1 txs6 g6 _ (by decide)).2 _ rfl⟩

/-! ### C3: sandwich structural invariants -/

/-- Unpacking the victim test: a true result names a successful
transaction strictly between the two indices whose signer differs. -/
theorem has_victim_between_spec {transactions : List FetchedTransaction}
    {signer : String} {ftx btx : FetchedTransaction}
    (h : has_victim_between transactions signer ftx btx = true) :
    ∃ v ∈ transactions, ftx.index < v.index ∧ v.index < btx.index ∧
      v.is_success = true ∧ ∃ vs, v.signer = Option.some vs ∧ vs ≠ signer := by
  unfold has_victim_between at h
  obtain ⟨v, hvmem, hvpred⟩ := List.any_eq_true.1 h
  obtain ⟨hvmem2, hvsucc⟩ := List.mem_filter.1 hvmem
  obtain ⟨hvmem3, hvbetween⟩ := List.mem_filter.1 hvmem2
  rw [Bool.and_eq_true] at hvbetween
  obtain ⟨hvlo, hvhi⟩ := hvbetween
  refine ⟨v, hvmem3, of_decide_eq_true hvlo, of_decide_eq_true hvhi, hvsucc, ?_⟩
  cases hvs : v.signer with
  | none => rw [hvs] at hvpred; cases hvpred
  | some vs =>
    rw [hvs] at hvpred
    refine ⟨vs, rfl, ?_⟩
    intro heq
    rw [heq] at hvpred
    simp at hvpred

/-- Inversion of the per-pair sandwich checks. -/
theorem sandwich_checks_some {transactions : List FetchedTransaction}
    {signer : String} {ftx btx : FetchedTransaction} {cand : OwnedSandwich}
    (h : sandwich_checks transactions signer ftx btx = Option.some cand) :
    cand.front_run_tx = ftx ∧ cand.back_run_tx = btx ∧ cand.signer = signer ∧
    (∃ v ∈ transactions, ftx.index < v.index ∧ v.index < btx.index ∧
      v.is_success = true ∧ ∃ vs, v.signer = Option.some vs ∧ vs ≠ signer) ∧
    ∃ fs bs, SwapParser.extract_swaps ftx = [fs] ∧
      SwapParser.extract_swaps btx = [bs] ∧
      cand.front_run_swaps = [fs] ∧ cand.back_run_swaps = [bs] ∧
      unorderedPair fs = unorderedPair bs ∧
      ¬(fs.token0 = bs.token0 ∧ fs.token1 = bs.token1) := by
  unfold sandwich_checks at h
  cases hvic : has_victim_between transactions signer ftx btx with
  | false => rw [hvic] at h; simp at h
  | true =>
    rw [hvic] at h
    simp only [Bool.not_true] at h
    rw [if_neg (by simp)] at h
    cases hfs : SwapParser.extract_swaps ftx with
    | nil => simp only [hfs] at h; exact Option.noConfusion h
    | cons fs fsrest =>
      cases hbs : SwapParser.extract_swaps btx with
      | nil => simp only [hfs, hbs] at h; exact Option.noConfusion h
      | cons bs bsrest =>
        cases fsrest with
        | cons _ _ => simp only [hfs, hbs] at h; exact Option.noConfusion h
        | nil =>
          cases bsrest with
          | cons _ _ => simp only [hfs, hbs] at h; exact Option.noConfusion h
          | nil =>
            simp only [hfs, hbs] at h
            cases hpc : unorderedPair fs == unorderedPair bs with
            | false => rw [hpc] at h; simp at h
            | true =>
              rw [hpc] at h
              simp only [Bool.not_true] at h
              rw [if_neg (by simp)] at h
              cases hdc : fs.token0 == bs.token0 && fs.token1 == bs.token1 with
              | true => rw [hdc] at h; simp at h
              | false =>
                rw [hdc] at h
                simp only [Bool.false_eq_true, if_false] at h
                obtain rfl := Option.some.inj h
                refine ⟨rfl, rfl, rfl, has_victim_between_spec hvic,
                  fs, bs, rfl, rfl, rfl, rfl, eq_of_beq hpc, ?_⟩
                rintro ⟨h0, h1⟩
                rw [h0, h1] at hdc
                simp at hdc

/-- Inversion of the inner back-run scan. -/
theorem find_back_some {transactions : List FetchedTransaction} {signer : String}
    {g : List FetchedTransaction} {i : Nat} {used : List Nat} {j : Nat}
    {cand : OwnedSandwich}
    (h : find_back transactions signer g i used = Option.some (j, cand)) :
    i < j ∧ j < g.length ∧ ∃ ftx btx, g.get? i = Option.some ftx ∧
      g.get? j = Option.some btx ∧
      sandwich_checks transactions signer ftx btx = Option.some cand := by
  unfold find_back at h
  obtain ⟨j2, hj2mem, hj2⟩ := List.exists_of_findSome?_eq_some h
  cases hgi : g.get? i with
  | none =>
    cases hgj : g.get? j2 <;> simp only [hgi, hgj] at hj2 <;>
      exact Option.noConfusion hj2
  | some ftx =>
    cases hgj : g.get? j2 with
    | none => simp only [hgi, hgj] at hj2; exact Option.noConfusion hj2
    | some btx =>
      simp only [hgi, hgj] at hj2
      cases hsc : sandwich_checks transactions signer ftx btx with
      | none => rw [hsc] at hj2; exact Option.noConfusion hj2
      | some cand2 =>
        rw [hsc] at hj2
        have hj2b : (j2, cand2) = (j, cand) := Option.some.inj hj2
        obtain ⟨rfl, rfl⟩ := Prod.ext_iff.1 hj2b
        have hrange := List.mem_range'_1.1 (List.mem_filter.1 hj2mem).1
        exact ⟨by omega, by omega, ftx, btx, rfl, hgj, hsc⟩

/-- Inversion of the greedy left scan over one group. -/
theorem greedy_group_mem {transactions : List FetchedTransaction} {signer : String}
    {g : List FetchedTransaction} {cand : OwnedSandwich}
    (h : cand ∈ greedy_group transactions signer g) :
    ∃ i j, i < j ∧ ∃ ftx btx, g.get? i = Option.some ftx ∧
      g.get? j = Option.some btx ∧
      sandwich_checks transactions signer ftx btx = Option.some cand := by
  unfold greedy_group at h
  refine foldl_preserve_mem
    (fun (st : List Nat × List OwnedSandwich) => ∀ c ∈ st.2,
      ∃ i j, i < j ∧ ∃ ftx btx, g.get? i = Option.some ftx ∧
        g.get? j = Option.some btx ∧
        sandwich_checks transactions signer ftx btx = Option.some c)
    _ _ _ (by simp) ?_ cand h
  intro st i _ hP
  dsimp only
  split
  · exact hP
  · cases hfb : find_back transactions signer g i st.1 with
    | none => simp only [hfb]; exact hP
    | some jc =>
      simp only [hfb]
      intro c hc
      rcases List.mem_append.1 hc with h1 | h1
      · exact hP c h1
      · rcases List.mem_singleton.1 h1 with rfl
        obtain ⟨hij, _, ftx, btx, hgi, hgj, hsc⟩ := find_back_some
          (show find_back transactions signer g i st.1 = Option.some (jc.1, jc.2) by
            rw [hfb])
        exact ⟨i, jc.1, hij, ftx, btx, hgi, hgj, hsc⟩

/-- Inversion of sandwich identification into one signer group. -/
theorem identify_sandwiches_mem {transactions : List FetchedTransaction}
    {groups : List (String × List FetchedTransaction)} {cand : OwnedSandwich}
    (h : cand ∈ identify_sandwiches_lazy transactions groups) :
    ∃ sg ∈ groups, cand ∈ greedy_group transactions sg.1 sg.2 := by
  unfold identify_sandwiches_lazy at h
  split at h
  · cases h
  · refine foldl_preserve_mem
      (fun (acc : List OwnedSandwich) => ∀ c ∈ acc,
        ∃ sg ∈ groups, c ∈ greedy_group transactions sg.1 sg.2)
      _ _ _ (by simp) ?_ cand h
    intro acc sg hsg hP c hc
    by_cases hlen : sg.2.length < 2
    · rw [if_pos hlen] at hc; exact hP c hc
    · rw [if_neg hlen] at hc
      rcases List.mem_append.1 hc with h1 | h1
      · exact hP c h1
      · exact ⟨sg, hsg, h1⟩

/-- Strictly increasing indices propagate to positional lookups. -/
theorem pairwise_get?_lt {l : List FetchedTransaction}
    (hp : List.Pairwise (fun a b => a.index < b.index) l) {i j : Nat}
    {a b : FetchedTransaction} (hij : i < j) (ha : l.get? i = Option.some a)
    (hb : l.get? j = Option.some b) : a.index < b.index := by
  obtain ⟨hi, ha2⟩ := List.get?_eq_some.1 ha
  obtain ⟨hj, hb2⟩ := List.get?_eq_some.1 hb
  have := List.pairwise_iff_get.1 hp ⟨i, hi⟩ ⟨j, hj⟩ hij
  rw [ha2, hb2] at this
  exact this

/-- Members of a signer group are transactions of the block, successful,
and signed by that signer. -/
theorem signerGroup_mem {transactions : List FetchedTransaction} {s : String}
    {tx : FetchedTransaction} (h : tx ∈ signerGroup transactions s) :
    tx ∈ transactions ∧ tx.is_success = true ∧ tx.signer = Option.some s := by
  obtain ⟨hmem, hcond⟩ := List.mem_filter.1 h
  rw [Bool.and_eq_true] at hcond
  obtain ⟨hsucc, hsig⟩ := hcond
  exact ⟨hmem, hsucc, eq_of_beq hsig⟩

/-- C3: for a block whose transaction indices increase in list order,
every SandwichEvent emitted by `detect_mev` has `front_run.index <
back_run.index`, a successful victim transaction strictly between them
from a different signer, and front/back swaps on the same unordered pair
with different ordered directions. -/
theorem c3_sandwich_structure (price_map : PriceMap) (slot : Nat)
    (transactions : List FetchedTransaction)
    (groups : List (String × List FetchedTransaction))
    (hG : validGrouping transactions groups)
    (hmono : List.Pairwise (fun a b => a.index < b.index) transactions) :
    ∀ e ∈ detect_mev price_map slot transactions groups,
      ∀ s, e = MevEvent.sandwich s →
        s.front_run.index < s.back_run.index ∧
        (∃ v ∈ transactions, s.front_run.index < v.index ∧
          v.index < s.back_run.index ∧ v.is_success = true ∧
          ∃ vs, v.signer = Option.some vs ∧ vs ≠ s.signer) ∧
        ∃ fs bs, s.front_run.swap = [fs] ∧ s.back_run.swap = [bs] ∧
          unorderedPair fs = unorderedPair bs ∧
          ¬(fs.token0 = bs.token0 ∧ fs.token1 = bs.token1) := by
  intro e he s hes
  subst hes
  rcases detect_mev_mem he with ⟨a, ha, _⟩ | ⟨s2, hs2, hmem⟩
  · cases ha
  · injection hs2 with hs2
    subst hs2
    obtain ⟨cand, hcand, rfl, _⟩ := calc_sandwich_mem hmem
    rw [sandwich_candidates] at hcand
    split at hcand
    · obtain ⟨sg, hsg, hgreedy⟩ := identify_sandwiches_mem hcand
      obtain ⟨i, j, hij, ftx, btx, hgi, hgj, hsc⟩ := greedy_group_mem hgreedy
      obtain ⟨hcf, hcb, hcs, ⟨v, hvmem, hvlo, hvhi, hvsucc, vs, hvs, hvne⟩,
        fs, bs, _, _, hcfs, hcbs, hpair, hdir⟩ := sandwich_checks_some hsc
      have hgEq : sg.2 = signerGroup transactions sg.1 := hG.2 sg hsg
      have hgMono : List.Pairwise (fun a b => a.index < b.index) sg.2 := by
        rw [hgEq]
        exact hmono.sublist (List.filter_sublist _)
      have hidx : ftx.index < btx.index := pairwise_get?_lt hgMono hij hgi hgj
      refine ⟨?_, ⟨v, hvmem, ?_, ?_, hvsucc, vs, hvs, ?_⟩, fs, bs, ?_, ?_, hpair, hdir⟩
      · show cand.front_run_tx.index < cand.back_run_tx.index
        rw [hcf, hcb]; exact hidx
      · show cand.front_run_tx.index < v.index
        rw [hcf]; exact hvlo
      · show v.index < cand.back_run_tx.index
        rw [hcb]; exact hvhi
      · show vs ≠ cand.signer
        rw [hcs]; exact hvne
      · show cand.front_run_swaps = [fs]
        exact hcfs
      · show cand.back_run_swaps = [bs]
        exact hcbs
    · cases hcand

/-- Witness for `c3_sandwich_structure` at the C7 block's first
sandwich. -/
theorem c3_witness :
    validGrouping txs7 g7 ∧
    List.Pairwise (fun a b => a.index < b.index) txs7 ∧
    MevEvent.sandwich ((sandwichesOf (detect_mev pm7 1 txs7 g7)).headI)
      ∈ detect_mev pm7 1 txs7 g7 ∧
    (((sandwichesOf (detect_mev pm7 1 txs7 g7)).headI).front_run.index <
        ((sandwichesOf (detect_mev pm7 1 txs7 g7)).headI).back_run.index ∧
     (∃ v ∈ txs7,
        ((sandwichesOf (detect_mev pm7 1 txs7 g7)).headI).front_run.index < v.index ∧
        v.index < ((sandwichesOf (detect_mev pm7 1 txs7 g7)).headI).back_run.index ∧
        v.is_success = true ∧
        ∃ vs, v.signer = Option.some vs ∧
          vs ≠ ((sandwichesOf (detect_mev pm7 1 txs7 g7)).headI).signer) ∧
     ∃ fs bs, ((sandwichesOf (detect_mev pm7 1 txs7 g7)).headI).front_run.swap = [fs] ∧
        ((sandwichesOf (detect_mev pm7 1 txs7 g7)).headI).back_run.swap = [bs] ∧
        unorderedPair fs = unorderedPair bs ∧
        ¬(fs.token0 = bs.token0 ∧ fs.token1 = bs.token1)) := by
  have hG : validGrouping txs7 g7 := by
    refine ⟨by decide, ?_⟩
    intro p hp
    rcases List.mem_cons.1 hp with rfl | hp2
    · rfl
    · rcases List.mem_singleton.1 hp2 with rfl
      rfl
  refine ⟨hG, by decide, by decide, ?_⟩
  exact c3_sandwich_structure pm7 1 txs7 g7 hG (by decide) _ (by decide) _ rfl

/-! ### C7: ordering of the emitted event list -/

/-- The per-pair sandwich ordering asserted by the claim: any two
sandwich events in list order have increasing front-run index; pairs
involving an arbitrage event are not constrained by this relation. -/
def sandwichFrontOrdered : MevEvent → MevEvent → Bool
  | MevEvent.sandwich sa, MevEvent.sandwich sb =>
    decide (sa.front_run.index < sb.front_run.index)
  | _, _ => true

/-- The shape constraint of the claim: no sandwich event precedes an
arbitrage event. -/
def arbBeforeSandwich : MevEvent → MevEvent → Bool
  | MevEvent.sandwich _, MevEvent.arbitrage _ => false
  | _, _ => true

/-- The amended per-pair ordering: sandwich events of the same attacker
appear in increasing front-run index order; sandwiches of distinct
attackers are unordered (their relative order is the unspecified
`HashMap` iteration order of `tx_by_signer`). -/
def sameSignerFrontOrdered : MevEvent → MevEvent → Bool
  | MevEvent.sandwich sa, MevEvent.sandwich sb =>
    !(sa.signer == sb.signer) || decide (sa.front_run.index < sb.front_run.index)
  | _, _ => true

/-- The relation holds vacuously whenever the left event is an
arbitrage. -/
theorem sameSignerFrontOrdered_arb_left (a : ArbitrageEvent) (b : MevEvent) :
    sameSignerFrontOrdered (MevEvent.arbitrage a) b = true := by
  cases b <;> rfl

/-- Every candidate of the greedy scan carries the group's signer. -/
theorem greedy_group_signer {transactions : List FetchedTransaction} {signer : String}
    {g : List FetchedTransaction} {cand : OwnedSandwich}
    (h : cand ∈ greedy_group transactions signer g) : cand.signer = signer := by
  obtain ⟨i, j, _, ftx, btx, _, _, hsc⟩ := greedy_group_mem h
  exact (sandwich_checks_some hsc).2.2.1

/-- The greedy left scan emits candidates with strictly increasing
front-run indices when the group's indices strictly increase. -/
theorem greedy_group_front_pairwise {transactions : List FetchedTransaction}
    {signer : String} {g : List FetchedTransaction}
    (hg : List.Pairwise (fun a b => a.index < b.index) g) :
    List.Pairwise (fun c1 c2 : OwnedSandwich =>
      c1.front_run_tx.index < c2.front_run_tx.index)
      (greedy_group transactions signer g) := by
  unfold greedy_group
  have main : ∀ (l : List Nat), List.Pairwise (fun a b => a < b) l →
      ∀ (st : List Nat × List OwnedSandwich),
      (∀ c ∈ st.2, ∃ i0 ftx, g.get? i0 = Option.some ftx ∧
        c.front_run_tx = ftx ∧ ∀ r ∈ l, i0 < r) →
      List.Pairwise (fun c1 c2 : OwnedSandwich =>
        c1.front_run_tx.index < c2.front_run_tx.index) st.2 →
      List.Pairwise (fun c1 c2 : OwnedSandwich =>
        c1.front_run_tx.index < c2.front_run_tx.index)
        ((List.foldl (fun st i =>
          if st.1.contains i then st
          else
            match find_back transactions signer g i st.1 with
            | Option.some jc => (st.1 ++ [i, jc.1], st.2 ++ [jc.2])
            | Option.none => st) st l).2) := by
    intro l
    induction l with
    | nil => intro _ st _ hpw; exact hpw
    | cons i rest ih =>
      intro hl st hinv hpw
      have hlrest : List.Pairwise (fun a b => a < b) rest := (List.pairwise_cons.1 hl).2
      have hihead : ∀ r ∈ rest, i < r := (List.pairwise_cons.1 hl).1
      simp only [List.foldl_cons]
      by_cases hc : st.1.contains i = true
      · rw [if_pos hc]
        refine ih hlrest st ?_ hpw
        intro c hcm
        obtain ⟨i0, ftx, hgi0, hcf, hlt⟩ := hinv c hcm
        exact ⟨i0, ftx, hgi0, hcf, fun r hr => hlt r (List.mem_cons_of_mem _ hr)⟩
      · rw [if_neg hc]
        cases hfb : find_back transactions signer g i st.1 with
        | none =>
          simp only [hfb]
          refine ih hlrest st ?_ hpw
          intro c hcm
          obtain ⟨i0, ftx, hgi0, hcf, hlt⟩ := hinv c hcm
          exact ⟨i0, ftx, hgi0, hcf, fun r hr => hlt r (List.mem_cons_of_mem _ hr)⟩
        | some jc =>
          simp only [hfb]
          obtain ⟨hij, hjlen, ftx, btx, hgi, hgj, hsc⟩ := find_back_some
            (show find_back transactions signer g i st.1 = Option.some (jc.1, jc.2) by
              rw [hfb])
          refine ih hlrest (st.1 ++ [i, jc.1], st.2 ++ [jc.2]) ?_ ?_
          · intro c hcm
            rcases List.mem_append.1 hcm with h1 | h1
            · obtain ⟨i0, ftx0, hgi0, hcf0, hlt⟩ := hinv c h1
              exact ⟨i0, ftx0, hgi0, hcf0, fun r hr => hlt r (List.mem_cons_of_mem _ hr)⟩
            · rcases List.mem_singleton.1 h1 with rfl
              exact ⟨i, ftx, hgi, (sandwich_checks_some hsc).1, hihead⟩
          · rw [List.pairwise_append]
            refine ⟨hpw, by simp, ?_⟩
            intro c hcm d hdm
            rcases List.mem_singleton.1 hdm with rfl
            obtain ⟨i0, ftx0, hgi0, hcf0, hlt⟩ := hinv c hcm
            have hi0i : i0 < i := hlt i (List.mem_cons_self i rest)
            have hidx := pairwise_get?_lt hg hi0i hgi0 hgi
            rw [hcf0, (sandwich_checks_some hsc).1]
            exact hidx
  exact main (List.range g.length) (List.pairwise_lt_range g.length) ([], [])
    (by simp) (by simp)

/-- The concatenation over signer groups is pairwise ordered: candidates
of one group share its signer and increase in front-run index; candidates
of distinct groups have distinct signers. -/
theorem identify_sandwiches_pairwise {transactions : List FetchedTransaction}
    {groups : List (String × List FetchedTransaction)}
    (hG : validGrouping transactions groups)
    (hmono : List.Pairwise (fun a b => a.index < b.index) transactions) :
    List.Pairwise (fun c1 c2 : OwnedSandwich =>
      ¬(c1.signer = c2.signer) ∨ c1.front_run_tx.index < c2.front_run_tx.index)
      (identify_sandwiches_lazy transactions groups) := by
  unfold identify_sandwiches_lazy
  split
  · exact List.Pairwise.nil
  · have main : ∀ (gs : List (String × List FetchedTransaction)),
        (gs.map Prod.fst).Nodup →
        (∀ sg ∈ gs, sg.2 = signerGroup transactions sg.1) →
        ∀ (acc : List OwnedSandwich),
        List.Pairwise (fun c1 c2 : OwnedSandwich =>
          ¬(c1.signer = c2.signer) ∨ c1.front_run_tx.index < c2.front_run_tx.index) acc →
        (∀ c ∈ acc, ∀ sg ∈ gs, ¬(c.signer = sg.1)) →
        List.Pairwise (fun c1 c2 : OwnedSandwich =>
          ¬(c1.signer = c2.signer) ∨ c1.front_run_tx.index < c2.front_run_tx.index)
          (List.foldl (fun acc sg =>
            if sg.2.length < 2 then acc
            else acc ++ greedy_group transactions sg.1 sg.2) acc gs) := by
      intro gs
      induction gs with
      | nil => intro _ _ acc hpw _; exact hpw
      | cons sg rest ih =>
        intro hnd hgrp acc hpw hdisj
        rw [List.map_cons] at hnd
        have hkey : sg.1 ∉ rest.map Prod.fst := (List.nodup_cons.1 hnd).1
        have hndrest : (rest.map Prod.fst).Nodup := (List.nodup_cons.1 hnd).2
        have hgrprest : ∀ p ∈ rest, p.2 = signerGroup transactions p.1 :=
          fun p hp => hgrp p (List.mem_cons_of_mem _ hp)
        simp only [List.foldl_cons]
        by_cases hlen : sg.2.length < 2
        · rw [if_pos hlen]
          exact ih hndrest hgrprest acc hpw
            (fun c hc sg' hsg' => hdisj c hc sg' (List.mem_cons_of_mem _ hsg'))
        · rw [if_neg hlen]
          refine ih hndrest hgrprest (acc ++ greedy_group transactions sg.1 sg.2) ?_ ?_
          · rw [List.pairwise_append]
            refine ⟨hpw, ?_, ?_⟩
            · have hgmono : List.Pairwise (fun a b => a.index < b.index) sg.2 := by
                rw [hgrp sg (List.mem_cons_self _ _)]
                exact hmono.sublist (List.filter_sublist _)
              exact (greedy_group_front_pairwise hgmono).imp (fun h => Or.inr h)
            · intro c hc d hd
              exact Or.inl (fun heq => hdisj c hc sg (List.mem_cons_self _ _)
                (heq.trans (greedy_group_signer hd)))
          · intro c hc sg' hsg'
            rcases List.mem_append.1 hc with h1 | h1
            · exact hdisj c h1 sg' (List.mem_cons_of_mem _ hsg')
            · intro heq
              rw [greedy_group_signer h1] at heq
              exact hkey (by rw [heq]; exact List.mem_map_of_mem Prod.fst hsg')
    exact main groups hG.1 hG.2 [] List.Pairwise.nil (by simp)

/-- C7 (counterexample): at the C7 block the spec's shape holds (all
arbitrages precede all sandwiches) but the sandwiches are NOT in
increasing front-run index order: the grouping that iterates signer `A`
before signer `B` emits fronts at indices 5 then 1. -/
theorem c7_counterexample :
    validGrouping txs7 g7 ∧
    List.Pairwise (fun a b => a.index < b.index) txs7 ∧
    List.Pairwise (fun a b => arbBeforeSandwich a b = true)
      (detect_mev pm7 1 txs7 g7) ∧
    ¬ List.Pairwise (fun a b => sandwichFrontOrdered a b = true)
      (detect_mev pm7 1 txs7 g7) := by
  refine ⟨⟨by decide, ?_⟩, by decide, by decide, by decide⟩
  intro p hp
  rcases List.mem_cons.1 hp with rfl | hp2
  · rfl
  · rcases List.mem_singleton.1 hp2 with rfl
    rfl

/-- C7 (amended): for every block with increasing transaction indices and
every valid grouping, `detect_mev` returns all arbitrage events followed
by all sandwich events, and sandwich events of the same attacker appear
in increasing front-run index order. -/
theorem c7_order_amended (price_map : PriceMap) (slot : Nat)
    (transactions : List FetchedTransaction)
    (groups : List (String × List FetchedTransaction))
    (hG : validGrouping transactions groups)
    (hmono : List.Pairwise (fun a b => a.index < b.index) transactions) :
    (∃ (arbs : List ArbitrageEvent) (sands : List SandwichEvent),
      detect_mev price_map slot transactions groups =
      arbs.map MevEvent.arbitrage ++ sands.map MevEvent.sandwich) ∧
    List.Pairwise (fun a b => sameSignerFrontOrdered a b = true)
      (detect_mev price_map slot transactions groups) := by
  have hcand : List.Pairwise (fun c1 c2 : OwnedSandwich =>
      ¬(c1.signer = c2.signer) ∨ c1.front_run_tx.index < c2.front_run_tx.index)
      (sandwich_candidates transactions groups) := by
    unfold sandwich_candidates
    split
    · exact identify_sandwiches_pairwise hG hmono
    · exact List.Pairwise.nil
  have hev : List.Pairwise (fun s1 s2 : SandwichEvent =>
      ¬(s1.signer = s2.signer) ∨ s1.front_run.index < s2.front_run.index)
      (calculate_sandwich_profitability slot
        (sandwich_candidates transactions groups) price_map) := by
    unfold calculate_sandwich_profitability
    refine List.Pairwise.filterMap _ ?_ hcand
    intro c1 c2 hrel b1 hb1 b2 hb2
    by_cases h1 : (sandwich_event_of slot price_map c1).profitability.profit_usd ≤ 0
    · rw [if_pos h1] at hb1; simp at hb1
    · rw [if_neg h1] at hb1
      by_cases h2 : (sandwich_event_of slot price_map c2).profitability.profit_usd ≤ 0
      · rw [if_pos h2] at hb2; simp at hb2
      · rw [if_neg h2] at hb2
        rw [Option.mem_def] at hb1 hb2
        obtain rfl := Option.some.inj hb1
        obtain rfl := Option.some.inj hb2
        exact hrel
  by_cases hempty : ((arbitrage_candidates transactions).isEmpty &&
      (sandwich_candidates transactions groups).isEmpty) = true
  · have hdm0 : detect_mev price_map slot transactions groups = [] := by
      rw [detect_mev, if_pos hempty]
    rw [hdm0]
    exact ⟨⟨[], [], by simp⟩, List.Pairwise.nil⟩
  · have hdm : detect_mev price_map slot transactions groups =
        (((arbitrage_candidates transactions).filterMap (fun c =>
          detect_arbitrage_with_prices c.1 c.2.1 c.2.2.1 c.2.2.2 price_map
            MIN_SWAP_COUNT)).filter
          (fun arb => decide (0 < arb.profitability.profit_usd))).map
          MevEvent.arbitrage ++
        (calculate_sandwich_profitability slot
          (sandwich_candidates transactions groups) price_map).map
          MevEvent.sandwich := by
      rw [detect_mev, if_neg hempty]
    rw [hdm]
    refine ⟨⟨_, _, rfl⟩, ?_⟩
    rw [List.pairwise_append]
    refine ⟨?_, ?_, ?_⟩
    · refine List.pairwise_map.2 (List.pairwise_of_forall ?_)
      intro x y
      exact sameSignerFrontOrdered_arb_left x _
    · refine List.pairwise_map.2 (hev.imp ?_)
      intro s1 s2 h
      show (!(s1.signer == s2.signer) ||
        decide (s1.front_run.index < s2.front_run.index)) = true
      rcases h with h | h
      · simp [h]
      · simp [h]
    · intro a ha b hb
      obtain ⟨x, _, rfl⟩ := List.mem_map.1 ha
      exact sameSignerFrontOrdered_arb_left x b

/-- Witness for `c7_order_amended` at the C7 block. -/
theorem c7_amended_witness :
    validGrouping txs7 g7 ∧
    List.Pairwise (fun a b => a.index < b.index) txs7 ∧
    (∃ (arbs : List ArbitrageEvent) (sands : List SandwichEvent),
      detect_mev pm7 1 txs7 g7 =
      arbs.map MevEvent.arbitrage ++ sands.map MevEvent.sandwich) ∧
    List.Pairwise (fun a b => sameSignerFrontOrdered a b = true)
      (detect_mev pm7 1 txs7 g7) := by
  have hG : validGrouping txs7 g7 := by
    refine ⟨by decide, ?_⟩
    intro p hp
    rcases List.mem_cons.1 hp with rfl | hp2
    · rfl
    · rcases List.mem_singleton.1 hp2 with rfl
      rfl
  have h := c7_order_amended pm7 1 txs7 g7 hG (by decide)
  exact ⟨hG, by decide, h.1, h.2⟩

/-! ### C10: isolation of non-JSON transactions -/

/-- A non-JSON transaction has no signer. -/
theorem signer_other {tx : FetchedTransaction}
    (h : tx.transaction = EncodedTransaction.other) :
    tx.signer = Option.none := by
  simp only [FetchedTransaction.signer, h]

/-- Conversely, a transaction with a signer is JSON-encoded. -/
theorem signer_some_json {tx : FetchedTransaction} {s : String}
    (h : tx.signer = Option.some s) :
    ∃ u, tx.transaction = EncodedTransaction.json u := by
  cases ht : tx.transaction with
  | json u => exact ⟨u, rfl⟩
  | other =>
    rw [signer_other ht] at h
    cases h

/-- A non-JSON transaction yields no DEX programs. -/
theorem extract_dex_programs_other {tx : FetchedTransaction}
    (h : tx.transaction = EncodedTransaction.other) :
    SwapParser.extract_dex_programs tx = [] := by
  simp only [SwapParser.extract_dex_programs, h]

/-- With an empty key list the owner-map pass inserts nothing. -/
theorem insertOwnerBalances_nil (bs : OptionSerializer (List UiTransactionTokenBalance))
    (m : List (String × String)) : insertOwnerBalances [] bs m = m := by
  cases bs with
  | some balances =>
    induction balances generalizing m with
    | nil => rfl
    | cons b rest ih => exact ih _
  | none => rfl
  | skip => rfl

/-- A non-JSON transaction has an empty owner map. -/
theorem build_owner_map_other {tx : FetchedTransaction}
    (h : tx.transaction = EncodedTransaction.other) :
    SwapParser.build_owner_map tx = [] := by
  have hkeys : SwapParser.get_account_keys tx = [] := by
    simp only [SwapParser.get_account_keys, h]
  cases hm : tx.meta with
  | none => simp only [SwapParser.build_owner_map, hm]
  | some meta =>
    simp only [SwapParser.build_owner_map, hm, hkeys]
    rw [insertOwnerBalances_nil, insertOwnerBalances_nil]

/-- With an empty owner map no transfer is outgoing or incoming. -/
theorem splitSignerTransfers_nil_owner (transfers : List (Transfer × String))
    (signer : String) :
    splitSignerTransfers transfers [] signer = ([], []) := by
  unfold splitSignerTransfers
  generalize transfers.enum = l
  induction l with
  | nil => rfl
  | cons p rest ih =>
    rw [List.foldl_cons]
    exact ih

/-- An inner set parsed against an empty owner map yields no swaps. -/
theorem extract_inner_set_nil_owner (instructions : List UiInstruction)
    (token_map : List (String × String × Nat)) (account_keys : List String)
    (signer : String) (outer_dex : String) :
    SwapParser.extract_swaps_from_inner_set instructions token_map [] account_keys
      signer outer_dex = [] := by
  have h1 : SwapParser.extract_swaps_from_inner_set instructions token_map []
      account_keys signer outer_dex =
    matchTransfers
      (splitSignerTransfers
        (collectTransfers instructions token_map account_keys outer_dex) [] signer).1
      (splitSignerTransfers
        (collectTransfers instructions token_map account_keys outer_dex) [] signer).2 :=
    rfl
  rw [h1, splitSignerTransfers_nil_owner]
  rfl

/-- A non-JSON transaction yields no swaps. -/
theorem extract_swaps_other {tx : FetchedTransaction}
    (h : tx.transaction = EncodedTransaction.other) :
    SwapParser.extract_swaps tx = [] := by
  cases hm : tx.meta with
  | none =>
    rw [SwapParser.extract_swaps]
    simp only [hm]
  | some meta =>
    cases hi : meta.inner_instructions with
    | none =>
      rw [SwapParser.extract_swaps]
      simp only [hm, hi]
    | skip =>
      rw [SwapParser.extract_swaps]
      simp only [hm, hi]
    | some inner =>
      rw [SwapParser.extract_swaps]
      simp only [hm, hi, build_owner_map_other h]
      exact foldl_append_nil _ inner (fun b hb => extract_inner_set_nil_owner _ _ _ _ _)

/-- Every arbitrage candidate's transaction is in the block. -/
theorem arbitrage_candidates_mem {transactions : List FetchedTransaction}
    {c : FetchedTransaction × List SwapInfo × List TokenChange × List String}
    (h : c ∈ arbitrage_candidates transactions) : c.1 ∈ transactions := by
  obtain ⟨tx, htx, hc⟩ := List.mem_filterMap.1 h
  have h1 : c.1 = tx := by
    simp only [arbitrage_candidate] at hc
    by_cases hlen : (SwapParser.extract_swaps tx).length < MIN_SWAP_COUNT
    · rw [if_pos hlen] at hc
      cases hc
    · rw [if_neg hlen] at hc
      cases hsig : tx.signer with
      | none =>
        simp only [hsig] at hc
        cases hc
      | some signer =>
        simp only [hsig] at hc
        split at hc
        · obtain rfl := Option.some.inj hc
          rfl
        · cases hc
  rw [h1]
  exact (List.mem_filter.1 htx).1

/-- C10: non-JSON transactions are inert — their signer is `None`, they
parse to no swaps and no DEX programs — and every event emitted by
`detect_mev` originates from JSON-encoded transactions of the block (the
arbitrage transaction by signature, the sandwich front- and back-run
transactions by signature and index). -/
theorem c10_nonjson_isolation (price_map : PriceMap) (slot : Nat)
    (transactions : List FetchedTransaction)
    (groups : List (String × List FetchedTransaction))
    (hG : validGrouping transactions groups) :
    (∀ tx : FetchedTransaction, tx.transaction = EncodedTransaction.other →
      tx.signer = Option.none ∧ SwapParser.extract_swaps tx = [] ∧
      SwapParser.extract_dex_programs tx = []) ∧
    (∀ e ∈ detect_mev price_map slot transactions groups,
      (∀ a, e = MevEvent.arbitrage a →
        ∃ tx ∈ transactions, a.signature = tx.signature ∧
          ∃ u, tx.transaction = EncodedTransaction.json u) ∧
      (∀ s, e = MevEvent.sandwich s →
        (∃ tx ∈ transactions, s.front_run.signature = tx.signature ∧
          s.front_run.index = tx.index ∧
          ∃ u, tx.transaction = EncodedTransaction.json u) ∧
        (∃ tx ∈ transactions, s.back_run.signature = tx.signature ∧
          s.back_run.index = tx.index ∧
          ∃ u, tx.transaction = EncodedTransaction.json u))) := by
  refine ⟨?_, ?_⟩
  · intro tx htx
    exact ⟨signer_other htx, extract_swaps_other htx, extract_dex_programs_other htx⟩
  · intro e he
    refine ⟨?_, ?_⟩
    · intro a hea
      subst hea
      rcases detect_mev_mem he with ⟨a2, ha2, hpos, c, hc, hdet⟩ | ⟨s2, hs2, _⟩
      · injection ha2 with ha2
        subst ha2
        obtain ⟨signer, hsig, rfl⟩ := detect_arbitrage_with_prices_some hdet
        exact ⟨c.1, arbitrage_candidates_mem hc, rfl, signer_some_json hsig⟩
      · cases hs2
    · intro s hes
      subst hes
      rcases detect_mev_mem he with ⟨a2, ha2, _⟩ | ⟨s2, hs2, hmem⟩
      · cases ha2
      · injection hs2 with hs2
        subst hs2
        obtain ⟨cand, hcand, rfl, _⟩ := calc_sandwich_mem hmem
        have hcand2 : cand ∈ identify_sandwiches_lazy transactions groups := by
          rw [sandwich_candidates] at hcand
          split at hcand
          · exact hcand
          · cases hcand
        obtain ⟨sg, hsg, hgreedy⟩ := identify_sandwiches_mem hcand2
        obtain ⟨i, j, hij, ftx, btx, hgi, hgj, hsc⟩ := greedy_group_mem hgreedy
        obtain ⟨hcf, hcb, hcs, _, _⟩ := sandwich_checks_some hsc
        have hgEq : sg.2 = signerGroup transactions sg.1 := hG.2 sg hsg
        have hfmem : ftx ∈ sg.2 := by
          obtain ⟨hlt, hget⟩ := List.get?_eq_some.1 hgi
          rw [show ftx = sg.2.get ⟨i, hlt⟩ from hget.symm]
          exact List.get_mem _ _ _
        have hbmem : btx ∈ sg.2 := by
          obtain ⟨hlt, hget⟩ := List.get?_eq_some.1 hgj
          rw [show btx = sg.2.get ⟨j, hlt⟩ from hget.symm]
          exact List.get_mem _ _ _
        rw [hgEq] at hfmem hbmem
        obtain ⟨hfmem2, _, hfsig⟩ := signerGroup_mem hfmem
        obtain ⟨hbmem2, _, hbsig⟩ := signerGroup_mem hbmem
        constructor
        · refine ⟨ftx, hfmem2, ?_, ?_, signer_some_json hfsig⟩
          · show cand.front_run_tx.signature = ftx.signature
            rw [hcf]
          · show cand.front_run_tx.index = ftx.index
            rw [hcf]
        · refine ⟨btx, hbmem2, ?_, ?_, signer_some_json hbsig⟩
          · show cand.back_run_tx.signature = btx.signature
            rw [hcb]
          · show cand.back_run_tx.index = btx.index
            rw [hcb]

/-- Witness for `c10_nonjson_isolation`: the metadata-free non-JSON
transaction is fully inert, under the C7 block's grouping. -/
theorem c10_witness :
    validGrouping txs7 g7 ∧
    txNone.transaction = EncodedTransaction.other ∧
    (txNone.signer = Option.none ∧ SwapParser.extract_swaps txNone = [] ∧
     SwapParser.extract_dex_programs txNone = []) := by
  have hG : validGrouping txs7 g7 := by
    refine ⟨by decide, ?_⟩
    intro p hp
    rcases List.mem_cons.1 hp with rfl | hp2
    · rfl
    · rcases List.mem_singleton.1 hp2 with rfl
      rfl
  exact ⟨hG, rfl, (c10_nonjson_isolation pm7 1 txs7 g7 hG).1 txNone rfl⟩

end Pono
